import Mathlib

/-!
Shallow embedding of `src/hypothesis/stateful.py`: the stateful testing core
(run records, replay, serialization, shrink moves, and the rule-based state
machine builder), together with theorems settling the specification claims.
-/

set_option maxRecDepth 4000

namespace Stateful

/-- Basic serialized data, the JSON-like values `to_basic` / `from_basic`
exchange (integers, strings, lists and `None`). -/
inductive Basic where
  | null : Basic
  | int (n : Int) : Basic
  | str (s : String) : Basic
  | list (xs : List Basic) : Basic

/-- Decidable equality for serialized data (written out by hand because the
type nests `List`). -/
def Basic.decEq : (a b : Basic) → Decidable (a = b)
  | .null, .null => .isTrue rfl
  | .null, .int _ => .isFalse (by simp)
  | .null, .str _ => .isFalse (by simp)
  | .null, .list _ => .isFalse (by simp)
  | .int _, .null => .isFalse (by simp)
  | .int a, .int b =>
    if h : a = b then .isTrue (by rw [h]) else .isFalse (by simp [h])
  | .int _, .str _ => .isFalse (by simp)
  | .int _, .list _ => .isFalse (by simp)
  | .str _, .null => .isFalse (by simp)
  | .str _, .int _ => .isFalse (by simp)
  | .str a, .str b =>
    if h : a = b then .isTrue (by rw [h]) else .isFalse (by simp [h])
  | .str _, .list _ => .isFalse (by simp)
  | .list _, .null => .isFalse (by simp)
  | .list _, .int _ => .isFalse (by simp)
  | .list _, .str _ => .isFalse (by simp)
  | .list [], .list [] => .isTrue rfl
  | .list [], .list (_ :: _) => .isFalse (by simp)
  | .list (_ :: _), .list [] => .isFalse (by simp)
  | .list (x :: xs), .list (y :: ys) =>
    match Basic.decEq x y, Basic.decEq (.list xs) (.list ys) with
    | .isTrue h1, .isTrue h2 =>
      .isTrue (by simp only [Basic.list.injEq, List.cons.injEq] at h2 ⊢; exact ⟨h1, h2⟩)
    | .isFalse h1, _ =>
      .isFalse (by simp only [Basic.list.injEq, List.cons.injEq, not_and]; intro hx _; exact h1 hx)
    | _, .isFalse h2 =>
      .isFalse (by
        simp only [Basic.list.injEq, List.cons.injEq, not_and]
        intro _ ht; exact h2 (by rw [ht]))

instance : DecidableEq Basic := Basic.decEq

/-- Failure reasons of structural validation (`BadData` in the source,
raised by `check_data_type`, `check_length` and the explicit step-count
checks in `from_basic`). -/
inductive BadDataE where
  | wrongType : BadDataE
  | wrongLength : BadDataE
  | negativeSteps : BadDataE
  | implausibleSteps : BadDataE
deriving DecidableEq

/-- One slot of a run record: either the `TOMBSTONE` sentinel or a
`(strategy, serialized-data)` pair.  The strategy component is abstract
(`α`); deserialized records store `none` there, so the claims instantiate
`α` with an `Option` type. -/
inductive RecEntry (α : Type) where
  | tombstone : RecEntry α
  | entry (strat : α) (data : Basic) : RecEntry α
deriving DecidableEq

/-- Whether a record slot is the tombstone sentinel (`is TOMBSTONE` /
`!= TOMBSTONE` in the source). -/
def RecEntry.isTombstone {α : Type} : RecEntry α → Bool
  | .tombstone => true
  | .entry _ _ => false

/-- Deterministic stand-in for one 64-bit output of Python's seeded
generator.  Modelled from the spec: the RNG algorithm itself is out of
scope ("any seed-addressable deterministic generator suffices"), so any
concrete seed-addressable function is a faithful model of
`random.Random(starting).getrandbits(64)`. -/
def randbits64 (starting : Int) (i : Nat) : Nat :=
  (starting.natAbs + (i + 1) * 2654435761) % 2 ^ 64

/-- The `seeds` helper: the length-`n_steps` stream of per-index 64-bit
template seeds drawn from a generator seeded with `starting`. -/
def seeds (starting : Int) (n_steps : Nat) : List Nat :=
  (List.range n_steps).map (randbits64 starting)

theorem seeds_length (starting : Int) (n_steps : Nat) :
    (seeds starting n_steps).length = n_steps := by
  simp [seeds]

/-- The `StateMachineRunner` data: a seeded, replayable run record.  The
constructor assertions of the source (`0 <= n_steps <= 1000000`,
`len(templates) >= n_steps`) are tracked by `StateMachineRunner.Valid`. -/
structure StateMachineRunner (α : Type) where
  parameter_seed : Int
  template_seed : Int
  n_steps : Nat
  templates : List Nat
  record : List (RecEntry α)
deriving DecidableEq

/-- The constructor assertions of `StateMachineRunner.__init__`. -/
def StateMachineRunner.Valid {α : Type} (r : StateMachineRunner α) : Prop :=
  r.n_steps ≤ 1000000 ∧ r.n_steps ≤ r.templates.length

instance {α : Type} (r : StateMachineRunner α) : Decidable r.Valid := by
  unfold StateMachineRunner.Valid; infer_instance

/-- Serialization of one record slot inside `to_basic`: a tombstone becomes
`null`, an entry becomes the one-element list wrapping its payload. -/
def RecEntry.serialize {α : Type} : RecEntry α → Basic
  | .tombstone => .null
  | .entry _ d => .list [d]

/-- The adapter's `to_basic`: the canonical 4-field serialized form
`[parameter_seed, template_seed, n_steps, steps]`. -/
def to_basic {α : Type} (template : StateMachineRunner α) : Basic :=
  .list [.int template.parameter_seed, .int template.template_seed,
    .int template.n_steps, .list (template.record.map RecEntry.serialize)]

/-- The `check_data_type(integer_types, ...)` validation step. -/
def checkInt : Basic → Except BadDataE Int
  | .int n => .ok n
  | _ => .error .wrongType

/-- Deserialization of one element of the steps list in `from_basic`:
`None` becomes a tombstone, a one-element list becomes a record entry with
no stored strategy, and anything else is rejected. -/
def RecEntry.deserialize {β : Type} : Basic → Except BadDataE (RecEntry (Option β))
  | .null => .ok .tombstone
  | .list [x] => .ok (.entry none x)
  | .list _ => .error .wrongLength
  | _ => .error .wrongType

/-- The record-rebuilding loop of `from_basic`: deserializes each element
of the steps list in order, failing at the first malformed one. -/
def readRecord {β : Type} : List Basic → Except BadDataE (List (RecEntry (Option β)))
  | [] => .ok []
  | d :: rest => do
    let e ← RecEntry.deserialize d
    let es ← readRecord rest
    Except.ok (e :: es)

/-- The adapter's `from_basic`, parameterized by the configured default
step count (`Settings.default.stateful_step_count`, default 50): validates
the 4-field form structurally, rejects a negative or implausibly large
step count, and rebuilds the runner (with fresh per-index seeds and no
stored strategies). -/
def from_basic {β : Type} (default : Nat) (data : Basic) :
    Except BadDataE (StateMachineRunner (Option β)) := do
  let xs ← match data with
    | .list xs => Except.ok xs
    | _ => Except.error .wrongType
  match xs with
  | [d0, d1, d2, d3] => do
    let p ← checkInt d0
    let t ← checkInt d1
    let ns ← checkInt d2
    let steps ← match d3 with
      | .list ys => Except.ok ys
      | _ => Except.error BadDataE.wrongType
    if ns < 0 then Except.error .negativeSteps
    else if ns > (1000 * default : Int) then Except.error .implausibleSteps
    else do
      let rec ← readRecord steps
      Except.ok
        { parameter_seed := p, template_seed := t, n_steps := ns.toNat,
          templates := seeds t ns.toNat, record := rec }
  | _ => Except.error .wrongLength

/-- Whether a deserialization attempt was rejected. -/
def isErr {ε α : Type} : Except ε α → Bool
  | .error _ => true
  | .ok _ => false

@[simp] theorem except_ok_bind {ε α β : Type} (a : α) (f : α → Except ε β) :
    (Except.ok a >>= f) = f a := rfl

@[simp] theorem except_error_bind {ε α β : Type} (e : ε) (f : α → Except ε β) :
    ((Except.error e : Except ε α) >>= f) = Except.error e := rfl

/-- What one serialize / deserialize round trip does to a record slot: the
payload survives, the stored strategy is forgotten (`None`). -/
def RecEntry.strip {α β : Type} : RecEntry α → RecEntry (Option β)
  | .tombstone => .tombstone
  | .entry _ d => .entry none d

theorem deserialize_serialize {α β : Type} (rec : List (RecEntry α)) :
    readRecord (β := β) (rec.map RecEntry.serialize) =
      Except.ok (rec.map RecEntry.strip) := by
  induction rec with
  | nil => rfl
  | cons e rest ih =>
    cases e <;>
      simp [RecEntry.serialize, RecEntry.deserialize, RecEntry.strip,
        readRecord, ih]

theorem getD_map_strip {α β : Type} (rec : List (RecEntry α)) (i : Nat)
    (h : i < rec.length) :
    (rec.map (RecEntry.strip (β := β))).getD i .tombstone =
      RecEntry.strip (rec.getD i .tombstone) := by
  rw [List.getD_eq_getElem?_getD, List.getD_eq_getElem?_getD,
    List.getElem?_map, List.getElem?_eq_getElem h]
  rfl

theorem from_basic_to_basic_eq {α β : Type} (default : Nat)
    (r : StateMachineRunner α) (hb : r.n_steps ≤ 1000 * default) :
    from_basic (β := β) default (to_basic r) =
      Except.ok
        { parameter_seed := r.parameter_seed, template_seed := r.template_seed,
          n_steps := r.n_steps, templates := seeds r.template_seed r.n_steps,
          record := r.record.map RecEntry.strip } := by
  simp only [to_basic, from_basic, checkInt, except_ok_bind]
  have h0 : ¬((r.n_steps : Int) < 0) := not_lt.mpr (Int.natCast_nonneg _)
  have h1 : ¬((r.n_steps : Int) > (1000 * default : Int)) := by
    exact_mod_cast not_lt.mpr (by exact_mod_cast hb)
  simp only [h0, h1, if_false, deserialize_serialize, except_ok_bind,
    Int.toNat_natCast]

/-- C1 (corrected): for a valid run record whose step count does not exceed
1000 times the configured default, serializing with `to_basic` and
deserializing with `from_basic` yields a record with the same
`parameter_seed`, `template_seed` and `n_steps`, and the same serialized
payload at every non-tombstone record index, with tombstones mapping to
`null` and back to tombstones.  (The bound is necessary: see the
counterexample theorem.) -/
theorem serialize_roundtrip {α β : Type} (default : Nat)
    (r : StateMachineRunner α) (hv : r.Valid) (hb : r.n_steps ≤ 1000 * default) :
    ∃ r' : StateMachineRunner (Option β),
      from_basic default (to_basic r) = Except.ok r' ∧
      r'.parameter_seed = r.parameter_seed ∧
      r'.template_seed = r.template_seed ∧
      r'.n_steps = r.n_steps ∧
      r'.record.length = r.record.length ∧
      (∀ i, (r.record.getD i .tombstone).isTombstone →
        (r'.record.getD i .tombstone).isTombstone) ∧
      (∀ i s d, r.record.getD i .tombstone = RecEntry.entry s d →
        r'.record.getD i .tombstone = RecEntry.entry none d) := by
  refine ⟨_, from_basic_to_basic_eq default r hb, rfl, rfl, rfl, by simp, ?_, ?_⟩
  · intro i h
    show (r.record.map (RecEntry.strip (β := β))).getD i RecEntry.tombstone
        |>.isTombstone
    by_cases hlen : i < r.record.length
    · rw [getD_map_strip r.record i hlen]
      rcases hi : r.record.getD i RecEntry.tombstone with _ | ⟨s, d⟩
      · rfl
      · rw [hi] at h; simp [RecEntry.isTombstone] at h
    · rw [List.getD_eq_getElem?_getD,
        List.getElem?_eq_none (by simpa using not_lt.mp hlen)]
      rfl
  · intro i s d hi
    show (r.record.map (RecEntry.strip (β := β))).getD i RecEntry.tombstone =
      RecEntry.entry none d
    have hlen : i < r.record.length := by
      by_contra hlen
      rw [List.getD_eq_getElem?_getD, List.getElem?_eq_none (not_lt.mp hlen)] at hi
      simp at hi
    rw [getD_map_strip r.record i hlen, hi]
    rfl

/-- A valid run record (both constructor assertions hold) whose step count
lies between `1000 * default + 1` and the constructor's own bound. -/
def oversizedRunner : StateMachineRunner Unit :=
  { parameter_seed := 0, template_seed := 0, n_steps := 50001,
    templates := List.replicate 50001 0, record := [] }

/-- C1 counterexample: with the default step count configured to 50, the
valid record `oversizedRunner` (50001 steps, within the constructor's
`n_steps <= 1000000` assertion) serializes fine but is rejected on
deserialization as implausibly large, so serialize-then-deserialize is not
the identity on every valid record. -/
theorem serialize_roundtrip_break :
    oversizedRunner.Valid ∧
      from_basic (β := Unit) 50 (to_basic oversizedRunner) =
        Except.error BadDataE.implausibleSteps := by
  refine ⟨⟨by norm_num [oversizedRunner], ?_⟩, ?_⟩
  · show (50001 : Nat) ≤ (List.replicate 50001 (0 : Nat)).length
    rw [List.length_replicate]
  simp only [to_basic, from_basic, checkInt, oversizedRunner, except_ok_bind]
  norm_num

/-- Witness instantiating the corrected C1 round-trip theorem on a concrete
two-slot record (one live entry, one tombstone). -/
theorem serialize_roundtrip_witness :
    ∃ r' : StateMachineRunner (Option Unit),
      from_basic 50 (to_basic
        { parameter_seed := 7, template_seed := 9, n_steps := 2,
          templates := [3, 4], record :=
            [RecEntry.entry () (Basic.int 5), RecEntry.tombstone] }) =
        Except.ok r' ∧
      r'.parameter_seed = 7 ∧
      r'.template_seed = 9 ∧
      r'.n_steps = 2 ∧
      r'.record.length = 2 ∧
      (∀ i, ((([RecEntry.entry () (Basic.int 5), RecEntry.tombstone] :
          List (RecEntry Unit)).getD i RecEntry.tombstone).isTombstone →
        (r'.record.getD i RecEntry.tombstone).isTombstone)) ∧
      (∀ i s d, ([RecEntry.entry () (Basic.int 5), RecEntry.tombstone] :
          List (RecEntry Unit)).getD i RecEntry.tombstone = RecEntry.entry s d →
        r'.record.getD i RecEntry.tombstone = RecEntry.entry none d) := by
  have h := serialize_roundtrip (α := Unit) (β := Unit) 50
    { parameter_seed := 7, template_seed := 9, n_steps := 2,
      templates := [3, 4], record :=
        [RecEntry.entry () (Basic.int 5), RecEntry.tombstone] }
    (by constructor <;> norm_num) (by norm_num)
  exact h

theorem checkInt_err (d : Basic) (h : ∀ n, d ≠ .int n) :
    checkInt d = Except.error BadDataE.wrongType := by
  cases d with
  | int n => exact absurd rfl (h n)
  | _ => rfl

/-- C5: deserialization rejects as malformed any input that is not a list
of exact arity 4, any non-integer seed or step-count field, any negative
step count, and any step count exceeding 1000 times the configured
default; in particular `[0, 0, -1, []]` and `[0, 0, 10^12, []]` both fail
against a default of 50. -/
theorem from_basic_validation :
    (∀ (default : Nat) (d : Basic), (∀ xs, d ≠ .list xs) →
      isErr (from_basic (β := Unit) default d) = true) ∧
    (∀ (default : Nat) (xs : List Basic), xs.length ≠ 4 →
      isErr (from_basic (β := Unit) default (.list xs)) = true) ∧
    (∀ (default : Nat) (d0 d1 d2 d3 : Basic),
      ((∀ n, d0 ≠ .int n) ∨ (∀ n, d1 ≠ .int n) ∨ (∀ n, d2 ≠ .int n)) →
      isErr (from_basic (β := Unit) default (.list [d0, d1, d2, d3])) = true) ∧
    (∀ (default : Nat) (p t ns : Int) (d3 : Basic), ns < 0 →
      isErr (from_basic (β := Unit) default
        (.list [.int p, .int t, .int ns, d3])) = true) ∧
    (∀ (default : Nat) (p t ns : Int) (d3 : Basic), (1000 * default : Int) < ns →
      isErr (from_basic (β := Unit) default
        (.list [.int p, .int t, .int ns, d3])) = true) ∧
    from_basic (β := Unit) 50 (.list [.int 0, .int 0, .int (-1), .list []]) =
      Except.error BadDataE.negativeSteps ∧
    from_basic (β := Unit) 50 (.list [.int 0, .int 0, .int (10 ^ 12), .list []]) =
      Except.error BadDataE.implausibleSteps := by
  refine ⟨?_, ?_, ?_, ?_, ?_, ?_, ?_⟩
  · intro default d h
    cases d with
    | list xs => exact absurd rfl (h xs)
    | _ => rfl
  · intro default xs h
    rcases xs with _ | ⟨a, _ | ⟨b, _ | ⟨c, _ | ⟨d, _ | ⟨e, tl⟩⟩⟩⟩⟩ <;>
      simp_all [from_basic, isErr]
  · intro default d0 d1 d2 d3 h
    rcases h with h | h | h
    · simp [from_basic, checkInt_err d0 h, isErr]
    · cases hc0 : checkInt d0 with
      | error e => simp [from_basic, hc0, isErr]
      | ok n => simp [from_basic, hc0, checkInt_err d1 h, isErr]
    · cases hc0 : checkInt d0 with
      | error e => simp [from_basic, hc0, isErr]
      | ok n =>
        cases hc1 : checkInt d1 with
        | error e => simp [from_basic, hc0, hc1, isErr]
        | ok m => simp [from_basic, hc0, hc1, checkInt_err d2 h, isErr]
  · intro default p t ns d3 h
    cases d3 with
    | list ys => simp [from_basic, checkInt, isErr, if_pos h]
    | _ => simp [from_basic, checkInt, isErr]
  · intro default p t ns d3 h
    have hns : ¬ns < 0 :=
      not_lt.mpr (le_trans (by positivity) (le_of_lt h))
    cases d3 with
    | list ys => simp [from_basic, checkInt, isErr, hns, if_pos h]
    | _ => simp [from_basic, checkInt, isErr]
  · norm_num [from_basic, checkInt]
  · norm_num [from_basic, checkInt]

/-- Witness instantiating every universally quantified clause of the C5
validation theorem at a concrete malformed input. -/
theorem from_basic_validation_witness :
    isErr (from_basic (β := Unit) 50 Basic.null) = true ∧
    isErr (from_basic (β := Unit) 50 (.list [.int 0])) = true ∧
    isErr (from_basic (β := Unit) 50
      (.list [.str "x", .int 0, .int 0, .list []])) = true ∧
    isErr (from_basic (β := Unit) 50
      (.list [.int 0, .int 0, .int (-7), .list []])) = true ∧
    isErr (from_basic (β := Unit) 50
      (.list [.int 0, .int 0, .int 60000, .list []])) = true :=
  ⟨from_basic_validation.1 50 Basic.null (fun _ => by simp),
    from_basic_validation.2.1 50 [.int 0] (by simp),
    from_basic_validation.2.2.1 50 (.str "x") (.int 0) (.int 0) (.list [])
      (Or.inl fun _ => by simp),
    from_basic_validation.2.2.2.1 50 0 0 (-7) (.list []) (by norm_num),
    from_basic_validation.2.2.2.2.1 50 0 0 60000 (.list []) (by norm_num)⟩

/-! ## Replay: `StateMachineRunner.run`

The run loop of `StateMachineRunner.run` is embedded over an abstract
state machine (`Machine`) and an abstract per-step strategy protocol
(`StepStrategy`).  Machine state is passed explicitly; exceptions are
`Except`; the `try/finally` around the loop is the event appended by
`StateMachineRunner.run` after the loop result is known. -/

/-- Result of `strategy.from_basic(data)` during replay: success, the
recoverable `BadData` signal (which falls through to a fresh draw), or any
other exception (which propagates). -/
inductive DeserRes (τ E : Type) where
  | ok (t : τ) : DeserRes τ E
  | badData : DeserRes τ E
  | exn (e : E) : DeserRes τ E

/-- The slice of the search-strategy protocol the run loop consumes:
deserialize, serialize, seeded parameter and template draws, and reify. -/
structure StepStrategy (τ π V E : Type) where
  from_basic : Basic → DeserRes τ E
  to_basic : τ → Basic
  draw_parameter : Int → π
  draw_template : Nat → π → τ
  reify : τ → V

/-- The `GenericStateMachine` contract as the run loop sees it: `steps()`
(which may raise, e.g. the no-progress error), `execute_step` (which may
raise a behavioral failure), `print_step` and `teardown` as state
transformers. -/
structure Machine (S τ π V E : Type) where
  steps : S → Except E (StepStrategy τ π V E)
  execute_step : S → V → Except E S
  print_step : S → V → S
  teardown : S → S

/-- Observable events of one run: a fresh draw at an index (with the
parameter seed and the per-index template seed used), the execution of an
operation value at an index, and the teardown call. -/
inductive Ev (V : Type) where
  | drewFresh (i : Nat) (pseed : Int) (tseed : Nat) : Ev V
  | executed (i : Nat) (v : V) : Ev V
  | toreDown : Ev V
deriving DecidableEq

/-- Whether an event is the teardown call. -/
def Ev.isTeardown {V : Type} : Ev V → Bool
  | .toreDown => true
  | _ => false

/-- Whether an event is the execution of an operation value. -/
def Ev.isExec {V : Type} : Ev V → Bool
  | .executed _ _ => true
  | _ => false

/-- The executed-operation subsequence of an event trace. -/
def execEvents {V : Type} (evs : List (Ev V)) : List (Ev V) :=
  evs.filter Ev.isExec

/-- Persisting the serialized template at index `i`: overwrite in place
when the index exists, append otherwise (the `if i < len(self.record)`
branch of `run`). -/
def setOrAppend {α : Type} (rec : List α) (i : Nat) (e : α) : List α :=
  if i < rec.length then rec.set i e else rec ++ [e]

/-- Outcome of processing a single index of the run loop: skip (tombstone
`continue`), abort with an exception, or continue with a new machine
state. -/
inductive StepOut (S τ π V E : Type) where
  | skip : StepOut S τ π V E
  | abort (evs : List (Ev V))
      (rec : List (RecEntry (Option (StepStrategy τ π V E)))) (e : E) :
      StepOut S τ π V E
  | cont (evs : List (Ev V))
      (rec : List (RecEntry (Option (StepStrategy τ π V E)))) (s : S) :
      StepOut S τ π V E

variable {S τ π V E : Type}

/-- Tail of one loop iteration once the template is known: persist the
serialized template at index `i`, reify, optionally print, execute. -/
def finishStep (m : Machine S τ π V E) (fl : Bool) (i : Nat)
    (rec : List (RecEntry (Option (StepStrategy τ π V E)))) (s : S)
    (strat : StepStrategy τ π V E) (t : τ) (drew : List (Ev V)) :
    StepOut S τ π V E :=
  match m.execute_step (if fl then m.print_step s (strat.reify t) else s)
      (strat.reify t) with
  | .error e =>
    .abort (drew ++ [Ev.executed i (strat.reify t)])
      (setOrAppend rec i (.entry (some strat) (strat.to_basic t))) e
  | .ok s2 =>
    .cont (drew ++ [Ev.executed i (strat.reify t)])
      (setOrAppend rec i (.entry (some strat) (strat.to_basic t))) s2

/-- A fresh draw at index `i`: parameter from a generator seeded with
`parameter_seed` (the same seed at every index), template from a generator
seeded with the i-th entry of the per-index seed list. -/
def freshStep (m : Machine S τ π V E) (fl : Bool) (ps : Int) (tm : List Nat)
    (i : Nat) (rec : List (RecEntry (Option (StepStrategy τ π V E)))) (s : S)
    (strat : StepStrategy τ π V E) : StepOut S τ π V E :=
  finishStep m fl i rec s strat
    (strat.draw_template (tm.getD i 0) (strat.draw_parameter ps))
    [Ev.drewFresh i ps (tm.getD i 0)]

/-- One iteration of the run loop at index `i`: fetch `steps()`, consult
the record (tombstone skips; a stored payload is deserialized through the
current strategy, falling through to a fresh draw on `BadData`), then
persist / reify / print / execute. -/
def runStep (m : Machine S τ π V E) (fl : Bool) (ps : Int) (tm : List Nat)
    (i : Nat) (rec : List (RecEntry (Option (StepStrategy τ π V E)))) (s : S) :
    StepOut S τ π V E :=
  match m.steps s with
  | .error e => .abort [] rec e
  | .ok strat =>
    match rec[i]? with
    | some .tombstone => .skip
    | some (.entry _ d) =>
      match strat.from_basic d with
      | .ok t => finishStep m fl i rec s strat t []
      | .badData => freshStep m fl ps tm i rec s strat
      | .exn e => .abort [] rec e
    | none => freshStep m fl ps tm i rec s strat

/-- The run loop over indices `i, i+1, ...` with `k` iterations left,
returning the emitted events, the mutated record and the final machine
state (or the escaping exception). -/
def runSteps (m : Machine S τ π V E) (fl : Bool) (ps : Int) (tm : List Nat) :
    Nat → Nat → List (RecEntry (Option (StepStrategy τ π V E))) → S →
      List (Ev V) × List (RecEntry (Option (StepStrategy τ π V E))) × Except E S
  | 0, _, rec, s => ([], rec, Except.ok s)
  | k + 1, i, rec, s =>
    match runStep m fl ps tm i rec s with
    | .skip => runSteps m fl ps tm k (i + 1) rec s
    | .abort evs rec2 e => (evs, rec2, Except.error e)
    | .cont evs rec2 s2 =>
      let rest := runSteps m fl ps tm k (i + 1) rec2 s2
      (evs ++ rest.1, rest.2)

/-- Everything a completed `run` call leaves behind. -/
structure RunResult (S τ π V E : Type) where
  events : List (Ev V)
  record : List (RecEntry (Option (StepStrategy τ π V E)))
  outcome : Except E S

/-- The `StateMachineRunner.run` method: execute indices `0..n_steps`
against a fresh machine state `s0`, with `teardown` guaranteed by the
`try/finally` to follow the loop on every path. -/
def StateMachineRunner.run (m : Machine S τ π V E) (s0 : S) (fl : Bool)
    (r : StateMachineRunner (Option (StepStrategy τ π V E))) :
    RunResult S τ π V E :=
  let out := runSteps m fl r.parameter_seed r.templates r.n_steps 0 r.record s0
  { events := out.1 ++ [Ev.toreDown],
    record := out.2.1,
    outcome :=
      match out.2.2 with
      | .ok s => .ok (m.teardown s)
      | .error e => .error e }

/-- The events a single loop iteration emits. -/
def StepOut.evs : StepOut S τ π V E → List (Ev V)
  | .skip => []
  | .abort evs _ _ => evs
  | .cont evs _ _ => evs

theorem finishStep_evs (m : Machine S τ π V E) (fl : Bool) (i : Nat)
    (rec : List (RecEntry (Option (StepStrategy τ π V E)))) (s : S)
    (strat : StepStrategy τ π V E) (t : τ) (drew : List (Ev V)) :
    (finishStep m fl i rec s strat t drew).evs =
      drew ++ [Ev.executed i (strat.reify t)] := by
  unfold finishStep
  cases m.execute_step (if fl then m.print_step s (strat.reify t) else s)
      (strat.reify t) <;> rfl

theorem runStep_evs_forms (m : Machine S τ π V E) (fl : Bool) (ps : Int)
    (tm : List Nat) (i : Nat)
    (rec : List (RecEntry (Option (StepStrategy τ π V E)))) (s : S) :
    (runStep m fl ps tm i rec s).evs = [] ∨
    (∃ v, (runStep m fl ps tm i rec s).evs = [Ev.executed i v]) ∨
    (∃ v, (runStep m fl ps tm i rec s).evs =
      [Ev.drewFresh i ps (tm.getD i 0), Ev.executed i v]) := by
  unfold runStep freshStep
  cases m.steps s with
  | error e => exact Or.inl rfl
  | ok strat =>
    dsimp only
    cases rec[i]? with
    | none => exact Or.inr (Or.inr ⟨_, finishStep_evs m fl i rec s strat _ _⟩)
    | some entry =>
      cases entry with
      | tombstone => exact Or.inl rfl
      | entry st d =>
        dsimp only
        cases strat.from_basic d with
        | ok t =>
          exact Or.inr (Or.inl ⟨_, by
            simpa using finishStep_evs m fl i rec s strat t []⟩)
        | badData =>
          exact Or.inr (Or.inr ⟨_, finishStep_evs m fl i rec s strat _ _⟩)
        | exn e => exact Or.inl rfl

theorem runStep_evs_no_teardown (m : Machine S τ π V E) (fl : Bool) (ps : Int)
    (tm : List Nat) (i : Nat)
    (rec : List (RecEntry (Option (StepStrategy τ π V E)))) (s : S) :
    ((runStep m fl ps tm i rec s).evs).countP Ev.isTeardown = 0 := by
  rcases runStep_evs_forms m fl ps tm i rec s with h | ⟨v, h⟩ | ⟨v, h⟩ <;>
    simp [h, Ev.isTeardown]

theorem runSteps_no_teardown (m : Machine S τ π V E) (fl : Bool) (ps : Int)
    (tm : List Nat) :
    ∀ (k i : Nat) (rec : List (RecEntry (Option (StepStrategy τ π V E)))) (s : S),
      ((runSteps m fl ps tm k i rec s).1).countP Ev.isTeardown = 0 := by
  intro k
  induction k with
  | zero => intro i rec s; rfl
  | succ k ih =>
    intro i rec s
    have hstep := runStep_evs_no_teardown m fl ps tm i rec s
    unfold runSteps
    cases hs : runStep m fl ps tm i rec s with
    | skip => exact ih (i + 1) rec s
    | abort evs rec2 e =>
      rw [hs] at hstep
      simpa [StepOut.evs] using hstep
    | cont evs rec2 s2 =>
      rw [hs] at hstep
      simp only [StepOut.evs] at hstep
      simp [List.countP_append, hstep, ih (i + 1) rec2 s2]

/-- C4: for every run of a record against a machine instance, `teardown`
happens exactly once, strictly after the step loop, on every path: normal
completion, an exception escaping `execute_step`, and an exception raised
while fetching `steps()` or deserializing a stored payload (the loop
itself never tears down; the `try/finally` adds the single teardown at the
end of the trace). -/
theorem teardown_exactly_once (m : Machine S τ π V E) (s0 : S) (fl : Bool)
    (r : StateMachineRunner (Option (StepStrategy τ π V E))) :
    ∃ evs, (r.run m s0 fl).events = evs ++ [Ev.toreDown] ∧
      evs.countP Ev.isTeardown = 0 ∧
      ((r.run m s0 fl).events).countP Ev.isTeardown = 1 := by
  refine ⟨(runSteps m fl r.parameter_seed r.templates r.n_steps 0 r.record s0).1,
    rfl, runSteps_no_teardown m fl r.parameter_seed r.templates r.n_steps 0
      r.record s0, ?_⟩
  show ((runSteps m fl r.parameter_seed r.templates r.n_steps 0 r.record s0).1
    ++ [Ev.toreDown]).countP Ev.isTeardown = 1
  simp [List.countP_append,
    runSteps_no_teardown m fl r.parameter_seed r.templates r.n_steps 0 r.record s0,
    Ev.isTeardown]

theorem set_getElem?_self {α : Type} (l : List α) (i : Nat) (a : α)
    (h : l[i]? = some a) : l.set i a = l := by
  induction l generalizing i with
  | nil => simp at h
  | cons x xs ih =>
    cases i with
    | zero => simp at h; simp [h]
    | succ n => simp at h ⊢; exact ih n h

theorem getElem?_setOrAppend_lt {α : Type} (rec : List α) (i : Nat) (e : α)
    (hi : i ≤ rec.length) (j : Nat) (hj : j < i) :
    (setOrAppend rec i e)[j]? = rec[j]? := by
  unfold setOrAppend
  split
  · exact List.getElem?_set_ne (Nat.ne_of_lt hj).symm
  · exact List.getElem?_append_left (lt_of_lt_of_le hj hi)

theorem getElem?_setOrAppend_self {α : Type} (rec : List α) (i : Nat) (e : α)
    (hi : i ≤ rec.length) :
    (setOrAppend rec i e)[i]? = some e := by
  unfold setOrAppend
  split
  · exact List.getElem?_set_self (by assumption)
  · have : i = rec.length := le_antisymm hi (not_lt.mp (by assumption))
    subst this
    exact List.getElem?_concat_length rec e

theorem length_setOrAppend {α : Type} (rec : List α) (i : Nat) (e : α)
    (hi : i ≤ rec.length) :
    i + 1 ≤ (setOrAppend rec i e).length ∧
      rec.length ≤ (setOrAppend rec i e).length := by
  unfold setOrAppend
  split
  · simp only [List.length_set]
    exact ⟨by omega, le_refl _⟩
  · simp only [List.length_append, List.length_singleton]
    omega

theorem setOrAppend_of_getElem? {α : Type} (rec : List α) (i : Nat) (e : α)
    (h : rec[i]? = some e) : setOrAppend rec i e = rec := by
  have hlt : i < rec.length := (List.getElem?_eq_some.mp h).1
  unfold setOrAppend
  rw [if_pos hlt]
  exact set_getElem?_self rec i e h

theorem freshStep_eq (m : Machine S τ π V E) (fl : Bool) (ps : Int)
    (tm : List Nat) (i : Nat)
    (rec : List (RecEntry (Option (StepStrategy τ π V E)))) (s : S)
    (strat : StepStrategy τ π V E) :
    freshStep m fl ps tm i rec s strat =
      finishStep m fl i rec s strat
        (strat.draw_template (tm.getD i 0) (strat.draw_parameter ps))
        [Ev.drewFresh i ps (tm.getD i 0)] := rfl

theorem finishStep_cases (m : Machine S τ π V E) (fl : Bool) (i : Nat)
    (rec : List (RecEntry (Option (StepStrategy τ π V E)))) (s : S)
    (strat : StepStrategy τ π V E) (t : τ) (drew : List (Ev V)) :
    (∃ e, m.execute_step (if fl then m.print_step s (strat.reify t) else s)
        (strat.reify t) = .error e ∧
      finishStep m fl i rec s strat t drew =
        .abort (drew ++ [Ev.executed i (strat.reify t)])
          (setOrAppend rec i (.entry (some strat) (strat.to_basic t))) e) ∨
    (∃ s2, m.execute_step (if fl then m.print_step s (strat.reify t) else s)
        (strat.reify t) = .ok s2 ∧
      finishStep m fl i rec s strat t drew =
        .cont (drew ++ [Ev.executed i (strat.reify t)])
          (setOrAppend rec i (.entry (some strat) (strat.to_basic t))) s2) := by
  unfold finishStep
  cases m.execute_step (if fl then m.print_step s (strat.reify t) else s)
      (strat.reify t) with
  | error e => exact Or.inl ⟨e, rfl, rfl⟩
  | ok s2 => exact Or.inr ⟨s2, rfl, rfl⟩

theorem runStep_cases (m : Machine S τ π V E) (fl : Bool) (ps : Int)
    (tm : List Nat) (i : Nat)
    (rec : List (RecEntry (Option (StepStrategy τ π V E)))) (s : S) :
    (∃ e, m.steps s = .error e ∧
      runStep m fl ps tm i rec s = .abort [] rec e) ∨
    (∃ strat, m.steps s = .ok strat ∧ rec[i]? = some RecEntry.tombstone ∧
      runStep m fl ps tm i rec s = .skip) ∨
    (∃ strat st d t, m.steps s = .ok strat ∧
      rec[i]? = some (RecEntry.entry st d) ∧ strat.from_basic d = .ok t ∧
      runStep m fl ps tm i rec s = finishStep m fl i rec s strat t []) ∨
    (∃ strat st d, m.steps s = .ok strat ∧
      rec[i]? = some (RecEntry.entry st d) ∧ strat.from_basic d = .badData ∧
      runStep m fl ps tm i rec s = freshStep m fl ps tm i rec s strat) ∨
    (∃ strat st d e, m.steps s = .ok strat ∧
      rec[i]? = some (RecEntry.entry st d) ∧ strat.from_basic d = .exn e ∧
      runStep m fl ps tm i rec s = .abort [] rec e) ∨
    (∃ strat, m.steps s = .ok strat ∧ rec[i]? = none ∧
      runStep m fl ps tm i rec s = freshStep m fl ps tm i rec s strat) := by
  unfold runStep
  cases hsteps : m.steps s with
  | error e => exact Or.inl ⟨e, rfl, rfl⟩
  | ok strat =>
    dsimp only
    cases hrec : rec[i]? with
    | none => exact Or.inr (Or.inr (Or.inr (Or.inr (Or.inr ⟨strat, rfl, rfl, rfl⟩))))
    | some entry =>
      cases entry with
      | tombstone => exact Or.inr (Or.inl ⟨strat, rfl, rfl, rfl⟩)
      | entry st d =>
        dsimp only
        cases hfb : strat.from_basic d with
        | ok t =>
          exact Or.inr (Or.inr (Or.inl ⟨strat, st, d, t, rfl, rfl, hfb, rfl⟩))
        | badData =>
          exact Or.inr (Or.inr (Or.inr (Or.inl ⟨strat, st, d, rfl, rfl, hfb, rfl⟩)))
        | exn e =>
          exact Or.inr (Or.inr (Or.inr (Or.inr (Or.inl
            ⟨strat, st, d, e, rfl, rfl, hfb, rfl⟩))))

/-- Replay at an index whose record slot already holds a serialized
template that deserializes back through the current strategy: the loop
proceeds with exactly that template and no fresh draw. -/
theorem runStep_replay_entry {m : Machine S τ π V E} {fl : Bool} {ps : Int}
    {tm : List Nat} {i : Nat}
    {rec : List (RecEntry (Option (StepStrategy τ π V E)))} {s : S}
    {strat : StepStrategy τ π V E} {st : Option (StepStrategy τ π V E)} {t : τ}
    (hsteps : m.steps s = .ok strat)
    (hrec : rec[i]? = some (RecEntry.entry st (strat.to_basic t)))
    (hrt : strat.from_basic (strat.to_basic t) = .ok t) :
    runStep m fl ps tm i rec s = finishStep m fl i rec s strat t [] := by
  unfold runStep
  rw [hsteps]
  dsimp only
  rw [hrec]
  dsimp only
  rw [hrt]

/-- The run loop never rewrites record slots below the index it starts
at: each iteration touches only its own index. -/
theorem runSteps_rec_lt (m : Machine S τ π V E) (fl : Bool) (ps : Int)
    (tm : List Nat) :
    ∀ (k i : Nat) (rec : List (RecEntry (Option (StepStrategy τ π V E)))) (s : S),
      i ≤ rec.length → ∀ j, j < i →
        ((runSteps m fl ps tm k i rec s).2.1)[j]? = rec[j]? := by
  intro k
  induction k with
  | zero => intro i rec s _ j _; rfl
  | succ k ih =>
    intro i rec s hi j hj
    unfold runSteps
    rcases runStep_cases m fl ps tm i rec s with
      ⟨e, _, hr⟩ | ⟨strat, _, hrec, hr⟩ | ⟨strat, st, d, t, hsteps, hrec, hfb, hr⟩ |
      ⟨strat, st, d, hsteps, hrec, hfb, hr⟩ | ⟨strat, st, d, e, _, hrec, hfb, hr⟩ |
      ⟨strat, hsteps, hrec, hr⟩
    · rw [hr]
    · rw [hr]
      exact ih (i + 1) rec s
        (le_trans ((List.getElem?_eq_some.mp hrec).1) (le_refl _)) j
        (Nat.lt_succ_of_lt hj)
    · rw [hr]
      rcases finishStep_cases m fl i rec s strat t [] with
        ⟨e, _, hf⟩ | ⟨s2, _, hf⟩ <;> rw [hf] <;> dsimp only
      · exact getElem?_setOrAppend_lt rec i _ hi j hj
      · rw [ih (i + 1) _ s2 (le_trans (by omega)
          (length_setOrAppend rec i _ hi).1) j (Nat.lt_succ_of_lt hj)]
        exact getElem?_setOrAppend_lt rec i _ hi j hj
    · rw [hr, freshStep_eq]
      rcases finishStep_cases m fl i rec s strat
          (strat.draw_template (tm.getD i 0) (strat.draw_parameter ps))
          [Ev.drewFresh i ps (tm.getD i 0)] with
        ⟨e, _, hf⟩ | ⟨s2, _, hf⟩ <;> rw [hf] <;> dsimp only
      · exact getElem?_setOrAppend_lt rec i _ hi j hj
      · rw [ih (i + 1) _ s2 (le_trans (by omega)
          (length_setOrAppend rec i _ hi).1) j (Nat.lt_succ_of_lt hj)]
        exact getElem?_setOrAppend_lt rec i _ hi j hj
    · rw [hr]
    · rw [hr, freshStep_eq]
      rcases finishStep_cases m fl i rec s strat
          (strat.draw_template (tm.getD i 0) (strat.draw_parameter ps))
          [Ev.drewFresh i ps (tm.getD i 0)] with
        ⟨e, _, hf⟩ | ⟨s2, _, hf⟩ <;> rw [hf] <;> dsimp only
      · exact getElem?_setOrAppend_lt rec i _ hi j hj
      · rw [ih (i + 1) _ s2 (le_trans (by omega)
          (length_setOrAppend rec i _ hi).1) j (Nat.lt_succ_of_lt hj)]
        exact getElem?_setOrAppend_lt rec i _ hi j hj

theorem runSteps_succ_skip {m : Machine S τ π V E} {fl : Bool} {ps : Int}
    {tm : List Nat} {k i : Nat}
    {rec : List (RecEntry (Option (StepStrategy τ π V E)))} {s : S}
    (h : runStep m fl ps tm i rec s = .skip) :
    runSteps m fl ps tm (k + 1) i rec s = runSteps m fl ps tm k (i + 1) rec s := by
  show (match runStep m fl ps tm i rec s with
    | .skip => runSteps m fl ps tm k (i + 1) rec s
    | .abort evs rec2 e => (evs, rec2, Except.error e)
    | .cont evs rec2 s2 =>
      let rest := runSteps m fl ps tm k (i + 1) rec2 s2
      (evs ++ rest.1, rest.2)) = _
  rw [h]

theorem runSteps_succ_abort {m : Machine S τ π V E} {fl : Bool} {ps : Int}
    {tm : List Nat} {k i : Nat}
    {rec rec2 : List (RecEntry (Option (StepStrategy τ π V E)))} {s : S}
    {evs : List (Ev V)} {e : E}
    (h : runStep m fl ps tm i rec s = .abort evs rec2 e) :
    runSteps m fl ps tm (k + 1) i rec s = (evs, rec2, Except.error e) := by
  show (match runStep m fl ps tm i rec s with
    | .skip => runSteps m fl ps tm k (i + 1) rec s
    | .abort evs rec2 e => (evs, rec2, Except.error e)
    | .cont evs rec2 s2 =>
      let rest := runSteps m fl ps tm k (i + 1) rec2 s2
      (evs ++ rest.1, rest.2)) = _
  rw [h]

theorem runSteps_succ_cont {m : Machine S τ π V E} {fl : Bool} {ps : Int}
    {tm : List Nat} {k i : Nat}
    {rec rec2 : List (RecEntry (Option (StepStrategy τ π V E)))} {s s2 : S}
    {evs : List (Ev V)}
    (h : runStep m fl ps tm i rec s = .cont evs rec2 s2) :
    runSteps m fl ps tm (k + 1) i rec s =
      (evs ++ (runSteps m fl ps tm k (i + 1) rec2 s2).1,
        (runSteps m fl ps tm k (i + 1) rec2 s2).2) := by
  show (match runStep m fl ps tm i rec s with
    | .skip => runSteps m fl ps tm k (i + 1) rec s
    | .abort evs rec2 e => (evs, rec2, Except.error e)
    | .cont evs rec2 s2 =>
      let rest := runSteps m fl ps tm k (i + 1) rec2 s2
      (evs ++ rest.1, rest.2)) = _
  rw [h]

/-- The round-trip contract the run loop consumes from the strategy
protocol (spec section 8): serialize-then-deserialize is the identity for
every strategy the machine can hand out. -/
def RoundTrip (m : Machine S τ π V E) : Prop :=
  ∀ (s : S) (strat : StepStrategy τ π V E), m.steps s = .ok strat →
    ∀ t, strat.from_basic (strat.to_basic t) = .ok t

theorem runSteps_replay_core (m : Machine S τ π V E) (fl : Bool) (ps : Int)
    (tm : List Nat) (k i : Nat)
    (rec : List (RecEntry (Option (StepStrategy τ π V E)))) (s : S)
    (strat : StepStrategy τ π V E) (t : τ) (drew : List (Ev V))
    (hi : i ≤ rec.length)
    (hsteps : m.steps s = .ok strat)
    (hrt1 : strat.from_basic (strat.to_basic t) = .ok t)
    (hr : runStep m fl ps tm i rec s = finishStep m fl i rec s strat t drew)
    (hdrew : execEvents drew = [])
    (ih : ∀ (i : Nat) (rec : List (RecEntry (Option (StepStrategy τ π V E))))
      (s : S), i ≤ rec.length →
      (runSteps m fl ps tm k i ((runSteps m fl ps tm k i rec s).2.1) s).2.1 =
        (runSteps m fl ps tm k i rec s).2.1 ∧
      (runSteps m fl ps tm k i ((runSteps m fl ps tm k i rec s).2.1) s).2.2 =
        (runSteps m fl ps tm k i rec s).2.2 ∧
      execEvents (runSteps m fl ps tm k i
          ((runSteps m fl ps tm k i rec s).2.1) s).1 =
        execEvents (runSteps m fl ps tm k i rec s).1) :
    (runSteps m fl ps tm (k + 1) i
        ((runSteps m fl ps tm (k + 1) i rec s).2.1) s).2.1 =
      (runSteps m fl ps tm (k + 1) i rec s).2.1 ∧
    (runSteps m fl ps tm (k + 1) i
        ((runSteps m fl ps tm (k + 1) i rec s).2.1) s).2.2 =
      (runSteps m fl ps tm (k + 1) i rec s).2.2 ∧
    execEvents (runSteps m fl ps tm (k + 1) i
        ((runSteps m fl ps tm (k + 1) i rec s).2.1) s).1 =
      execEvents (runSteps m fl ps tm (k + 1) i rec s).1 := by
  rcases finishStep_cases m fl i rec s strat t drew with ⟨e, hex, hf⟩ | ⟨s2, hex, hf⟩
  · -- the execution of this step raises: both runs abort here with the
    -- same record and exception
    have h1 : runSteps m fl ps tm (k + 1) i rec s =
        (drew ++ [Ev.executed i (strat.reify t)],
          setOrAppend rec i (.entry (some strat) (strat.to_basic t)),
          Except.error e) :=
      runSteps_succ_abort (hr.trans hf)
    have hr1i : (setOrAppend rec i
        (.entry (some strat) (strat.to_basic t)))[i]? =
        some (.entry (some strat) (strat.to_basic t)) :=
      getElem?_setOrAppend_self rec i _ hi
    have hstep2 : runStep m fl ps tm i
        (setOrAppend rec i (.entry (some strat) (strat.to_basic t))) s =
        finishStep m fl i
          (setOrAppend rec i (.entry (some strat) (strat.to_basic t))) s
          strat t [] :=
      runStep_replay_entry hsteps hr1i hrt1
    have hf2 : finishStep m fl i
        (setOrAppend rec i (.entry (some strat) (strat.to_basic t))) s
        strat t [] =
        .abort ([] ++ [Ev.executed i (strat.reify t)])
          (setOrAppend rec i (.entry (some strat) (strat.to_basic t))) e := by
      unfold finishStep
      rw [hex, setOrAppend_of_getElem? _ _ _ hr1i]
    have h2 : runSteps m fl ps tm (k + 1) i
        (setOrAppend rec i (.entry (some strat) (strat.to_basic t))) s =
        ([] ++ [Ev.executed i (strat.reify t)],
          setOrAppend rec i (.entry (some strat) (strat.to_basic t)),
          Except.error e) :=
      runSteps_succ_abort (hstep2.trans hf2)
    refine ⟨?_, ?_, ?_⟩ <;> rw [h1] <;> dsimp only <;> rw [h2]
    simp only [execEvents, List.filter_append] at hdrew ⊢
    rw [hdrew]
    simp
  · -- the execution of this step succeeds: both runs continue into the
    -- tail with the same machine state, and the tail is handled by `ih`
    have h1 : runSteps m fl ps tm (k + 1) i rec s =
        ((drew ++ [Ev.executed i (strat.reify t)]) ++
            (runSteps m fl ps tm k (i + 1)
              (setOrAppend rec i (.entry (some strat) (strat.to_basic t))) s2).1,
          (runSteps m fl ps tm k (i + 1)
            (setOrAppend rec i (.entry (some strat) (strat.to_basic t))) s2).2) :=
      runSteps_succ_cont (hr.trans hf)
    have hi2 : i + 1 ≤
        (setOrAppend rec i (.entry (some strat) (strat.to_basic t))).length :=
      (length_setOrAppend rec i _ hi).1
    obtain ⟨ih1, ih2, ih3⟩ := ih (i + 1)
      (setOrAppend rec i (.entry (some strat) (strat.to_basic t))) s2 hi2
    set T1 := runSteps m fl ps tm k (i + 1)
      (setOrAppend rec i (.entry (some strat) (strat.to_basic t))) s2 with hT1
    have hr1i : T1.2.1[i]? = some (.entry (some strat) (strat.to_basic t)) := by
      rw [hT1, runSteps_rec_lt m fl ps tm k (i + 1) _ s2 hi2 i (Nat.lt_succ_self i)]
      exact getElem?_setOrAppend_self rec i _ hi
    have hstep2 : runStep m fl ps tm i T1.2.1 s =
        finishStep m fl i T1.2.1 s strat t [] :=
      runStep_replay_entry hsteps hr1i hrt1
    have hf2 : finishStep m fl i T1.2.1 s strat t [] =
        .cont ([] ++ [Ev.executed i (strat.reify t)]) T1.2.1 s2 := by
      unfold finishStep
      rw [hex, setOrAppend_of_getElem? _ _ _ hr1i]
    have h2 : runSteps m fl ps tm (k + 1) i T1.2.1 s =
        (([] ++ [Ev.executed i (strat.reify t)]) ++
            (runSteps m fl ps tm k (i + 1) T1.2.1 s2).1,
          (runSteps m fl ps tm k (i + 1) T1.2.1 s2).2) :=
      runSteps_succ_cont (hstep2.trans hf2)
    refine ⟨?_, ?_, ?_⟩ <;> rw [h1] <;> dsimp only <;> rw [h2] <;> dsimp only
    · exact ih1
    · exact ih2
    · simp only [execEvents, List.filter_append] at hdrew ih3 ⊢
      rw [hdrew, ih3]
      simp

/-- Replaying the record a completed run has just persisted, against a
machine started from the same fresh state, reproduces the same record,
outcome and executed-operation trace (given the round-trip contract on
the strategies in play). -/
theorem runSteps_replay (m : Machine S τ π V E) (hrt : RoundTrip m) (fl : Bool)
    (ps : Int) (tm : List Nat) :
    ∀ (k i : Nat) (rec : List (RecEntry (Option (StepStrategy τ π V E))))
      (s : S), i ≤ rec.length →
      (runSteps m fl ps tm k i ((runSteps m fl ps tm k i rec s).2.1) s).2.1 =
        (runSteps m fl ps tm k i rec s).2.1 ∧
      (runSteps m fl ps tm k i ((runSteps m fl ps tm k i rec s).2.1) s).2.2 =
        (runSteps m fl ps tm k i rec s).2.2 ∧
      execEvents (runSteps m fl ps tm k i
          ((runSteps m fl ps tm k i rec s).2.1) s).1 =
        execEvents (runSteps m fl ps tm k i rec s).1 := by
  intro k
  induction k with
  | zero => intro i rec s hi; exact ⟨rfl, rfl, rfl⟩
  | succ k ih =>
    intro i rec s hi
    rcases runStep_cases m fl ps tm i rec s with
      ⟨e, hsteps, hr⟩ | ⟨strat, hsteps, hrec, hr⟩ |
      ⟨strat, st, d, t, hsteps, hrec, hfb, hr⟩ |
      ⟨strat, st, d, hsteps, hrec, hfb, hr⟩ |
      ⟨strat, st, d, e, hsteps, hrec, hfb, hr⟩ |
      ⟨strat, hsteps, hrec, hr⟩
    · have h1 : runSteps m fl ps tm (k + 1) i rec s =
          ([], rec, Except.error e) := runSteps_succ_abort hr
      simp [h1]
    · -- a tombstone is skipped identically by both runs
      have h1 : runSteps m fl ps tm (k + 1) i rec s =
          runSteps m fl ps tm k (i + 1) rec s := runSteps_succ_skip hr
      have hlt : i < rec.length := (List.getElem?_eq_some.mp hrec).1
      obtain ⟨ih1, ih2, ih3⟩ := ih (i + 1) rec s hlt
      have hr1i : ((runSteps m fl ps tm k (i + 1) rec s).2.1)[i]? =
          some RecEntry.tombstone := by
        rw [runSteps_rec_lt m fl ps tm k (i + 1) rec s hlt i (Nat.lt_succ_self i)]
        exact hrec
      have hskip2 : runStep m fl ps tm i
          ((runSteps m fl ps tm k (i + 1) rec s).2.1) s = .skip := by
        unfold runStep; rw [hsteps]; dsimp only; rw [hr1i]
      have h2 : runSteps m fl ps tm (k + 1) i
          ((runSteps m fl ps tm k (i + 1) rec s).2.1) s =
          runSteps m fl ps tm k (i + 1)
            ((runSteps m fl ps tm k (i + 1) rec s).2.1) s :=
        runSteps_succ_skip hskip2
      rw [h1, h2]
      exact ⟨ih1, ih2, ih3⟩
    · exact runSteps_replay_core m fl ps tm k i rec s strat t [] hi hsteps
        (hrt s strat hsteps t) hr rfl ih
    · exact runSteps_replay_core m fl ps tm k i rec s strat _ _ hi hsteps
        (hrt s strat hsteps _) (hr.trans (freshStep_eq m fl ps tm i rec s strat))
        rfl ih
    · have h1 : runSteps m fl ps tm (k + 1) i rec s =
          ([], rec, Except.error e) := runSteps_succ_abort hr
      simp [h1]
    · exact runSteps_replay_core m fl ps tm k i rec s strat _ _ hi hsteps
        (hrt s strat hsteps _) (hr.trans (freshStep_eq m fl ps tm i rec s strat))
        rfl ih

/-- C2: replaying one run record against two freshly constructed instances
of a deterministic system under test executes the same sequence of
operation values in the same order in both runs.  The record is the one
object the first run has mutated in place (Python aliasing), the two
instances start from the same fresh state `s0`, and the strategies obey
the serialize round-trip contract of the protocol. -/
theorem replay_same_operations (m : Machine S τ π V E) (hrt : RoundTrip m)
    (s0 : S) (fl : Bool)
    (r : StateMachineRunner (Option (StepStrategy τ π V E))) (hv : r.Valid) :
    execEvents
        (StateMachineRunner.run m s0 fl
          { r with record := (StateMachineRunner.run m s0 fl r).record }).events =
      execEvents (StateMachineRunner.run m s0 fl r).events ∧
    (StateMachineRunner.run m s0 fl
        { r with record := (StateMachineRunner.run m s0 fl r).record }).record =
      (StateMachineRunner.run m s0 fl r).record ∧
    (StateMachineRunner.run m s0 fl
        { r with record := (StateMachineRunner.run m s0 fl r).record }).outcome =
      (StateMachineRunner.run m s0 fl r).outcome := by
  clear hv
  obtain ⟨h1, h2, h3⟩ := runSteps_replay m hrt fl r.parameter_seed r.templates
    r.n_steps 0 r.record s0 (Nat.zero_le _)
  refine ⟨?_, ?_, ?_⟩
  · show execEvents
        ((runSteps m fl r.parameter_seed r.templates r.n_steps 0
          ((runSteps m fl r.parameter_seed r.templates r.n_steps 0
            r.record s0).2.1) s0).1 ++ [Ev.toreDown]) =
      execEvents
        ((runSteps m fl r.parameter_seed r.templates r.n_steps 0
          r.record s0).1 ++ [Ev.toreDown])
    simp only [execEvents, List.filter_append] at h3 ⊢
    rw [h3]
  · exact h1
  · show (match (runSteps m fl r.parameter_seed r.templates r.n_steps 0
          ((runSteps m fl r.parameter_seed r.templates r.n_steps 0
            r.record s0).2.1) s0).2.2 with
        | Except.ok s => Except.ok (m.teardown s)
        | Except.error e => Except.error e) =
      (match (runSteps m fl r.parameter_seed r.templates r.n_steps 0
          r.record s0).2.2 with
        | Except.ok s => Except.ok (m.teardown s)
        | Except.error e => Except.error e)
    rw [h2]

/-- C3: a tombstoned index is skipped entirely (once `steps()` has been
fetched, the loop moves to the next index with the machine state, the
record and the event trace untouched), and every fresh draw at an index
uses the run's single parameter seed and that index's own entry of the
per-index seed list — so tombstoning any index never changes which
template seed any other index draws from. -/
theorem tombstone_skip_and_seed_stability (m : Machine S τ π V E) (fl : Bool)
    (ps : Int) (tm : List Nat) :
    (∀ (k i : Nat) (rec : List (RecEntry (Option (StepStrategy τ π V E))))
      (s : S) (strat : StepStrategy τ π V E), m.steps s = .ok strat →
      rec[i]? = some RecEntry.tombstone →
      runSteps m fl ps tm (k + 1) i rec s = runSteps m fl ps tm k (i + 1) rec s) ∧
    (∀ (k i0 : Nat) (rec : List (RecEntry (Option (StepStrategy τ π V E))))
      (s : S) (i : Nat) (p : Int) (ts : Nat),
      Ev.drewFresh i p ts ∈ (runSteps m fl ps tm k i0 rec s).1 →
      p = ps ∧ ts = tm.getD i 0) := by
  constructor
  · intro k i rec s strat hsteps hrec
    have hskip : runStep m fl ps tm i rec s = .skip := by
      unfold runStep; rw [hsteps]; dsimp only; rw [hrec]
    exact runSteps_succ_skip hskip
  · intro k
    induction k with
    | zero =>
      intro i0 rec s i p ts h
      rw [show (runSteps m fl ps tm 0 i0 rec s).1 = [] from rfl] at h
      exact absurd h (List.not_mem_nil _)
    | succ k ih =>
      intro i0 rec s i p ts h
      rcases runStep_cases m fl ps tm i0 rec s with
        ⟨e, hsteps, hr⟩ | ⟨strat, hsteps, hrec, hr⟩ |
        ⟨strat, st, d, t, hsteps, hrec, hfb, hr⟩ |
        ⟨strat, st, d, hsteps, hrec, hfb, hr⟩ |
        ⟨strat, st, d, e, hsteps, hrec, hfb, hr⟩ |
        ⟨strat, hsteps, hrec, hr⟩
      · rw [runSteps_succ_abort hr] at h
        simp at h
      · rw [runSteps_succ_skip hr] at h
        exact ih (i0 + 1) rec s i p ts h
      · rcases finishStep_cases m fl i0 rec s strat t [] with
          ⟨e, hex, hf⟩ | ⟨s2, hex, hf⟩
        · rw [runSteps_succ_abort (hr.trans hf)] at h
          simp at h
        · rw [runSteps_succ_cont (hr.trans hf)] at h
          simp at h
          exact ih (i0 + 1) _ s2 i p ts h
      · rcases finishStep_cases m fl i0 rec s strat
            (strat.draw_template (tm.getD i0 0) (strat.draw_parameter ps))
            [Ev.drewFresh i0 ps (tm.getD i0 0)] with
          ⟨e, hex, hf⟩ | ⟨s2, hex, hf⟩
        · rw [runSteps_succ_abort ((hr.trans
            (freshStep_eq m fl ps tm i0 rec s strat)).trans hf)] at h
          simp at h
          obtain ⟨hi, hp, hts⟩ := h
          subst hi
          exact ⟨hp, by rw [List.getD_eq_getElem?_getD]; exact hts⟩
        · rw [runSteps_succ_cont ((hr.trans
            (freshStep_eq m fl ps tm i0 rec s strat)).trans hf)] at h
          simp at h
          rcases h with ⟨hi, hp, hts⟩ | h
          · subst hi
            exact ⟨hp, by rw [List.getD_eq_getElem?_getD]; exact hts⟩
          · exact ih (i0 + 1) _ s2 i p ts h
      · rw [runSteps_succ_abort hr] at h
        simp at h
      · rcases finishStep_cases m fl i0 rec s strat
            (strat.draw_template (tm.getD i0 0) (strat.draw_parameter ps))
            [Ev.drewFresh i0 ps (tm.getD i0 0)] with
          ⟨e, hex, hf⟩ | ⟨s2, hex, hf⟩
        · rw [runSteps_succ_abort ((hr.trans
            (freshStep_eq m fl ps tm i0 rec s strat)).trans hf)] at h
          simp at h
          obtain ⟨hi, hp, hts⟩ := h
          subst hi
          exact ⟨hp, by rw [List.getD_eq_getElem?_getD]; exact hts⟩
        · rw [runSteps_succ_cont ((hr.trans
            (freshStep_eq m fl ps tm i0 rec s strat)).trans hf)] at h
          simp at h
          rcases h with ⟨hi, hp, hts⟩ | h
          · subst hi
            exact ⟨hp, by rw [List.getD_eq_getElem?_getD]; exact hts⟩
          · exact ih (i0 + 1) _ s2 i p ts h

/-- A tiny concrete deterministic strategy over natural-number templates,
used to witness the replay theorems on concrete inputs. -/
def demoStrategy : StepStrategy Nat Unit Nat Unit :=
  { from_basic := fun b =>
      match b with
      | .int n => if n < 0 then .badData else .ok n.toNat
      | _ => .badData,
    to_basic := fun t => .int t,
    draw_parameter := fun _ => (),
    draw_template := fun seed _ => seed % 10,
    reify := fun t => t }

/-- A tiny concrete deterministic machine whose state sums the executed
values. -/
def demoMachine : Machine Nat Nat Unit Nat Unit :=
  { steps := fun _ => .ok demoStrategy,
    execute_step := fun s v => .ok (s + v),
    print_step := fun s _ => s,
    teardown := fun s => s }

theorem demoMachine_roundTrip : RoundTrip demoMachine := by
  intro s strat h t
  have hs : demoStrategy = strat := by
    simpa [demoMachine] using h
  subst hs
  simp [demoStrategy]

/-- A two-step record for the replay witness. -/
def demoRunner : StateMachineRunner (Option (StepStrategy Nat Unit Nat Unit)) :=
  { parameter_seed := 0, template_seed := 0, n_steps := 2,
    templates := [3, 7], record := [] }

/-- Witness instantiating the C2 replay theorem on `demoMachine` and a
concrete two-step record. -/
theorem replay_same_operations_witness :
    execEvents
        (StateMachineRunner.run demoMachine 0 false
          { demoRunner with
            record := (StateMachineRunner.run demoMachine 0 false
              demoRunner).record }).events =
      execEvents (StateMachineRunner.run demoMachine 0 false demoRunner).events ∧
    (StateMachineRunner.run demoMachine 0 false
        { demoRunner with
          record := (StateMachineRunner.run demoMachine 0 false
            demoRunner).record }).record =
      (StateMachineRunner.run demoMachine 0 false demoRunner).record ∧
    (StateMachineRunner.run demoMachine 0 false
        { demoRunner with
          record := (StateMachineRunner.run demoMachine 0 false
            demoRunner).record }).outcome =
      (StateMachineRunner.run demoMachine 0 false demoRunner).outcome :=
  replay_same_operations demoMachine demoMachine_roundTrip 0 false demoRunner
    (by constructor <;> decide)

/-- Witness instantiating the C3 theorem: a concrete tombstone skip and a
concrete fresh draw whose seed is the indexed entry of the seed list. -/
theorem tombstone_skip_and_seed_stability_witness :
    (runSteps demoMachine false 0 [3, 7] 1 0 [RecEntry.tombstone] 0 =
      runSteps demoMachine false 0 [3, 7] 0 1 [RecEntry.tombstone] 0) ∧
    ((0 : Int) = 0 ∧ (3 : Nat) = [3, 7].getD 0 0) := by
  have h := tombstone_skip_and_seed_stability demoMachine false 0 [3, 7]
  exact ⟨h.1 0 0 [RecEntry.tombstone] 0 demoStrategy rfl rfl,
    h.2 1 0 [] 0 0 0 3 (by decide)⟩

/-! ## Shrink moves -/

/-- The randomness one shrink pass consumes, as oracles: the
`random.randint(0, 9)` draws of `random_discards` (indexed by probability
level, repetition and record index) and the shuffled index order of
`delete_elements` (as a function of the record length). -/
structure Rng where
  randint9 : Nat → Nat → Nat → Nat
  shuffled : Nat → List Nat

/-- The `cut_steps` while loop: midpoints between `mid` and `n_steps`,
each yielding a truncated variant and a tombstone-the-prefix variant.  The
fuel argument only bounds the iteration count; the loop in the source
strictly increases `mid` each pass, so `n_steps + 1` iterations always
reach the `next_mid == mid` exit. -/
def cutLoop {α : Type} (template : StateMachineRunner α) :
    Nat → Nat → List (StateMachineRunner α)
  | 0, _ => []
  | fuel + 1, mid =>
    let next := (template.n_steps + mid) / 2
    if next = mid then []
    else
      { template with n_steps := next } ::
      { template with
          record := template.record.mapIdx fun j e =>
            if j < next then RecEntry.tombstone else e } ::
      cutLoop template fuel next

/-- The `cut_steps` simplifier: cut to the live record length when it is
shorter than `n_steps`, then binary-search midpoints (`random` unused, as
in the source). -/
def cut_steps {α : Type} (_ : Rng) (template : StateMachineRunner α) :
    List (StateMachineRunner α) :=
  (if template.record.length < template.n_steps then
    [{ template with n_steps := template.record.length }]
  else []) ++ cutLoop template (template.n_steps + 1) 0

/-- The `random_discards` simplifier: only once at least 10 live entries
remain; for 7 escalating probability levels and 10 repetitions each, every
live index is independently tombstoned when its `randint(0, 9)` draw is at
most the level. -/
def random_discards {α : Type} (random : Rng)
    (template : StateMachineRunner α) : List (StateMachineRunner α) :=
  if template.record.countP (fun r => !r.isTombstone) < 10 then []
  else
    (List.range' 1 7).flatMap fun k =>
      (List.range 10).map fun rep =>
        { template with
            record := template.record.mapIdx fun j e =>
              if !e.isTombstone && random.randint9 k rep j ≤ k then
                RecEntry.tombstone
              else e }

/-- The `delete_elements` loop body: walk the shuffled indices, skip
tombstones, tombstone up to 10 single indices (each candidate discards
exactly one live index of the original record). -/
def deleteLoop {α : Type} (template : StateMachineRunner α) :
    List Nat → Nat → List (StateMachineRunner α)
  | [], _ => []
  | i :: rest, deletes =>
    if 10 ≤ deletes then []
    else if (template.record.getD i .tombstone).isTombstone then
      deleteLoop template rest deletes
    else
      { template with record := template.record.set i RecEntry.tombstone } ::
        deleteLoop template rest (deletes + 1)

/-- The `delete_elements` simplifier: indices visited in the random
shuffle order. -/
def delete_elements {α : Type} (random : Rng)
    (template : StateMachineRunner α) : List (StateMachineRunner α) :=
  deleteLoop template (random.shuffled template.record.length) 0

theorem cutLoop_n_steps_le {α : Type} (template : StateMachineRunner α) :
    ∀ (fuel mid : Nat), mid ≤ template.n_steps →
      ∀ c ∈ cutLoop template fuel mid, c.n_steps ≤ template.n_steps := by
  intro fuel
  induction fuel with
  | zero => intro mid _ c hc; exact absurd hc (List.not_mem_nil _)
  | succ fuel ih =>
    intro mid hmid c hc
    unfold cutLoop at hc
    by_cases hnext : (template.n_steps + mid) / 2 = mid
    · rw [if_pos hnext] at hc
      exact absurd hc (List.not_mem_nil _)
    · rw [if_neg hnext] at hc
      have hle : (template.n_steps + mid) / 2 ≤ template.n_steps := by omega
      rcases List.mem_cons.mp hc with hceq | hc2
      · rw [hceq]; exact hle
      · rcases List.mem_cons.mp hc2 with hceq | hc3
        · rw [hceq]
        · exact ih _ hle c hc3

theorem deleteLoop_record {α : Type} (template : StateMachineRunner α) :
    ∀ (idxs : List Nat) (deletes : Nat) (c : StateMachineRunner α),
      c ∈ deleteLoop template idxs deletes →
      ∃ j, c = { template with record := template.record.set j RecEntry.tombstone } := by
  intro idxs
  induction idxs with
  | nil => intro deletes c hc; exact absurd hc (List.not_mem_nil _)
  | cons i rest ih =>
    intro deletes c hc
    unfold deleteLoop at hc
    by_cases h10 : 10 ≤ deletes
    · rw [if_pos h10] at hc
      exact absurd hc (List.not_mem_nil _)
    · rw [if_neg h10] at hc
      by_cases htomb : (template.record.getD i RecEntry.tombstone).isTombstone
      · rw [if_pos htomb] at hc
        exact ih deletes c hc
      · rw [if_neg htomb] at hc
        rcases List.mem_cons.mp hc with hceq | hc2
        · exact ⟨i, hceq⟩
        · exact ih (deletes + 1) c hc2

/-- C6: every candidate yielded by the truncate move has `n_steps` at most
the input record's `n_steps`, and every candidate yielded by bulk discard
or single discard keeps a tombstone at every index that was tombstoned in
the input (discards never resurrect a tombstone). -/
theorem truncate_discard_safety {α : Type} :
    (∀ (random : Rng) (t c : StateMachineRunner α), c ∈ cut_steps random t →
      c.n_steps ≤ t.n_steps) ∧
    (∀ (random : Rng) (t c : StateMachineRunner α) (i : Nat),
      c ∈ random_discards random t →
      (t.record.getD i RecEntry.tombstone).isTombstone →
      (c.record.getD i RecEntry.tombstone).isTombstone) ∧
    (∀ (random : Rng) (t c : StateMachineRunner α) (i : Nat),
      c ∈ delete_elements random t →
      (t.record.getD i RecEntry.tombstone).isTombstone →
      (c.record.getD i RecEntry.tombstone).isTombstone) := by
  refine ⟨?_, ?_, ?_⟩
  · intro random t c hc
    unfold cut_steps at hc
    rcases List.mem_append.mp hc with hc | hc
    · by_cases hlen : t.record.length < t.n_steps
      · rw [if_pos hlen] at hc
        rw [List.mem_singleton] at hc
        rw [hc]
        exact le_of_lt hlen
      · rw [if_neg hlen] at hc
        exact absurd hc (List.not_mem_nil _)
    · exact cutLoop_n_steps_le t (t.n_steps + 1) 0 (Nat.zero_le _) c hc
  · intro random t c i hc htomb
    unfold random_discards at hc
    by_cases hlive : t.record.countP (fun r => !r.isTombstone) < 10
    · rw [if_pos hlive] at hc
      exact absurd hc (List.not_mem_nil _)
    · rw [if_neg hlive] at hc
      rcases List.mem_flatMap.mp hc with ⟨k, _, hk⟩
      rcases List.mem_map.mp hk with ⟨rep, _, hrep⟩
      subst hrep
      show ((t.record.mapIdx fun j e =>
        if !e.isTombstone && random.randint9 k rep j ≤ k then
          RecEntry.tombstone else e).getD i RecEntry.tombstone).isTombstone
      rw [List.getD_eq_getElem?_getD, List.getElem?_mapIdx]
      cases hrec : t.record[i]? with
      | none => rfl
      | some e =>
        rw [List.getD_eq_getElem?_getD, hrec] at htomb
        cases e with
        | tombstone => simp [RecEntry.isTombstone]
        | entry st d => exact absurd htomb (by simp [RecEntry.isTombstone])
  · intro random t c i hc htomb
    obtain ⟨j, hj⟩ := deleteLoop_record t
      (random.shuffled t.record.length) 0 c hc
    subst hj
    show ((t.record.set j RecEntry.tombstone).getD i RecEntry.tombstone).isTombstone
    by_cases hij : i = j
    · subst hij
      rw [List.getD_eq_getElem?_getD]
      cases hrec : (t.record.set i RecEntry.tombstone)[i]? with
      | none => rfl
      | some e =>
        have hlen : i < t.record.length := by
          have := (List.getElem?_eq_some.mp hrec).1
          simpa using this
        rw [List.getElem?_set_self hlen] at hrec
        cases hrec
        rfl
    · rw [List.getD_eq_getElem?_getD, List.getElem?_set_ne (Ne.symm hij)]
      rw [List.getD_eq_getElem?_getD] at htomb
      exact htomb

/-- Oracle that always answers 0 and shuffles into the identity order. -/
def demoRng : Rng :=
  { randint9 := fun _ _ _ => 0, shuffled := fun n => List.range n }

/-- A record shorter than its step count, for the truncate witness. -/
def demoCutInput : StateMachineRunner Unit :=
  { parameter_seed := 0, template_seed := 0, n_steps := 2,
    templates := [1, 2], record := [] }

/-- A record with ten live entries and one tombstone, for the bulk-discard
witness. -/
def demoDiscardInput : StateMachineRunner Unit :=
  { parameter_seed := 0, template_seed := 0, n_steps := 11,
    templates := List.replicate 11 0,
    record := List.replicate 10 (RecEntry.entry () (Basic.int 0)) ++
      [RecEntry.tombstone] }

/-- A record with one live entry and one tombstone, for the single-discard
witness. -/
def demoDeleteInput : StateMachineRunner Unit :=
  { parameter_seed := 0, template_seed := 0, n_steps := 2,
    templates := [1, 2],
    record := [RecEntry.entry () (Basic.int 0), RecEntry.tombstone] }

/-- Witness instantiating the C6 theorem: a concrete truncate candidate, a
concrete bulk-discard candidate and a concrete single-discard candidate. -/
theorem truncate_discard_safety_witness :
    ({ demoCutInput with n_steps := 1 } : StateMachineRunner Unit).n_steps ≤
      demoCutInput.n_steps ∧
    (({ demoDiscardInput with
        record := List.replicate 11 RecEntry.tombstone } :
      StateMachineRunner Unit).record.getD 10 RecEntry.tombstone).isTombstone ∧
    (({ demoDeleteInput with
        record := [RecEntry.tombstone, RecEntry.tombstone] } :
      StateMachineRunner Unit).record.getD 1 RecEntry.tombstone).isTombstone :=
  ⟨(truncate_discard_safety (α := Unit)).1 demoRng demoCutInput _ (by decide),
   (truncate_discard_safety (α := Unit)).2.1 demoRng demoDiscardInput _ 10
     (by decide) (by decide),
   (truncate_discard_safety (α := Unit)).2.2 demoRng demoDeleteInput _ 1
     (by decide) (by decide)⟩

/-- The slice of the child-strategy protocol the per-step delegation pass
consumes: deserialize (with `BadData` as the only recoverable failure),
serialize, and the strategy's own shrink-move enumeration. -/
structure ChildStrategy (τ : Type) where
  from_basic : Basic → Except Unit τ
  to_basic : τ → Basic
  simplifiers : Rng → τ → List (Rng → τ → List τ)

/-- The `convert_simplifier` wrapper: applying a wrapped move to a record
is a no-op when the target index is out of range or tombstoned or its
payload no longer deserializes; otherwise each inner move result is
written back (serialized) at exactly the target index. -/
def convert_simplifier {τ : Type} (strategy : ChildStrategy τ)
    (simplifier : Rng → τ → List τ) (i : Nat) (random : Rng)
    (template : StateMachineRunner (Option (ChildStrategy τ))) :
    List (StateMachineRunner (Option (ChildStrategy τ))) :=
  if template.record.length ≤ i then []
  else
    match template.record.getD i .tombstone with
    | .tombstone => []
    | .entry _ d =>
      match strategy.from_basic d with
      | .error _ => []
      | .ok reconstituted =>
        (simplifier random reconstituted).map fun t =>
          { parameter_seed := template.parameter_seed,
            template_seed := template.template_seed,
            n_steps := template.n_steps,
            templates := template.templates,
            record := template.record.set i
              (.entry (some strategy) (strategy.to_basic t)) }

/-- The per-index tail of the `simplifiers` generator, walking the record
from index `i`.  An entry with no stored strategy is passed over
(`continue`); a live entry is deserialized through its stored strategy —
with no `BadData` handler at this point, so a failure ends the generator
with an escaping exception, modelled by the `Bool` component. -/
def perIndexMoves {τ : Type} (random : Rng) :
    List (RecEntry (Option (ChildStrategy τ))) → Nat →
      List (Rng → StateMachineRunner (Option (ChildStrategy τ)) →
        List (StateMachineRunner (Option (ChildStrategy τ)))) × Bool
  | [], _ => ([], false)
  | e :: rest, i =>
    match e with
    | .tombstone => perIndexMoves random rest (i + 1)
    | .entry none _ => perIndexMoves random rest (i + 1)
    | .entry (some strategy) d =>
      match strategy.from_basic d with
      | .error _ => ([], true)
      | .ok child =>
        let tail := perIndexMoves random rest (i + 1)
        ((strategy.simplifiers random child).map
          (fun s => convert_simplifier strategy s i) ++ tail.1, tail.2)

/-- The adapter's `simplifiers` generator: the three record-level moves in
priority order, then the per-index delegation moves; the `Bool` component
records whether the generator ended by raising `BadData` from a stored
payload that no longer deserializes. -/
def simplifiers {τ : Type} (random : Rng)
    (template : StateMachineRunner (Option (ChildStrategy τ))) :
    List (Rng → StateMachineRunner (Option (ChildStrategy τ)) →
      List (StateMachineRunner (Option (ChildStrategy τ)))) × Bool :=
  (cut_steps :: random_discards :: delete_elements ::
    (perIndexMoves random template.record 0).1,
   (perIndexMoves random template.record 0).2)

/-- A record all of whose live strategy-bearing payloads deserialize
through their own stored producing strategy (the state the spec's data
model describes: every record entry is a (producing-strategy, payload)
pair). -/
def DelegationReady {τ : Type}
    (t : StateMachineRunner (Option (ChildStrategy τ))) : Prop :=
  ∀ (i : Nat) (strategy : ChildStrategy τ) (d : Basic),
    t.record.getD i .tombstone = .entry (some strategy) d →
    ∃ c, strategy.from_basic d = .ok c

/-- Every candidate of a wrapped move is the input record with exactly the
target index rewritten to the serialized inner shrink result. -/
theorem convert_simplifier_mem_inv {τ : Type} {strategy : ChildStrategy τ}
    {simplifier : Rng → τ → List τ} {i : Nat} {random : Rng}
    {template c : StateMachineRunner (Option (ChildStrategy τ))}
    (h : c ∈ convert_simplifier strategy simplifier i random template) :
    ∃ t', c =
      { parameter_seed := template.parameter_seed,
        template_seed := template.template_seed,
        n_steps := template.n_steps,
        templates := template.templates,
        record := template.record.set i
          (.entry (some strategy) (strategy.to_basic t')) } := by
  unfold convert_simplifier at h
  by_cases hlen : template.record.length ≤ i
  · rw [if_pos hlen] at h
    exact absurd h (List.not_mem_nil _)
  · rw [if_neg hlen] at h
    cases hrec : template.record.getD i RecEntry.tombstone with
    | tombstone =>
      rw [hrec] at h
      exact absurd h (List.not_mem_nil _)
    | entry st d =>
      rw [hrec] at h
      dsimp only at h
      cases hfb : strategy.from_basic d with
      | error e =>
        rw [hfb] at h
        exact absurd h (List.not_mem_nil _)
      | ok reconstituted =>
        rw [hfb] at h
        obtain ⟨t', _, ht'⟩ := List.mem_map.mp h
        exact ⟨t', ht'.symm⟩

theorem perIndexMoves_mem {τ : Type} (random : Rng) :
    ∀ (rec : List (RecEntry (Option (ChildStrategy τ)))) (i0 : Nat),
      (∀ (j : Nat) (strategy : ChildStrategy τ) (d : Basic),
        rec.getD j .tombstone = .entry (some strategy) d →
        ∃ c, strategy.from_basic d = .ok c) →
      ∀ (j : Nat) (strategy : ChildStrategy τ) (d : Basic) (child : τ)
        (s : Rng → τ → List τ),
        rec.getD j .tombstone = .entry (some strategy) d →
        strategy.from_basic d = .ok child →
        s ∈ strategy.simplifiers random child →
        convert_simplifier strategy s (i0 + j) ∈
          (perIndexMoves random rec i0).1 := by
  intro rec
  induction rec with
  | nil =>
    intro i0 _ j strategy d child s hj
    rw [List.getD_eq_getElem?_getD] at hj
    simp at hj
  | cons e rest ih =>
    intro i0 hready j strategy d child s hj hfb hs
    have hsuffix : ∀ (j : Nat) (strategy : ChildStrategy τ) (d : Basic),
        rest.getD j .tombstone = .entry (some strategy) d →
        ∃ c, strategy.from_basic d = .ok c := by
      intro j' st' d' h'
      exact hready (j' + 1) st' d' (by rwa [List.getD_cons_succ])
    cases e with
    | tombstone =>
      cases j with
      | zero => rw [List.getD_cons_zero] at hj; exact absurd hj (by simp)
      | succ j' =>
        rw [List.getD_cons_succ] at hj
        have hmem := ih (i0 + 1) hsuffix j' strategy d child s hj hfb hs
        have hshape : perIndexMoves random (RecEntry.tombstone :: rest) i0 =
            perIndexMoves random rest (i0 + 1) := rfl
        rw [hshape, show i0 + (j' + 1) = i0 + 1 + j' by omega]
        exact hmem
    | entry st0 d0 =>
      cases st0 with
      | none =>
        cases j with
        | zero => rw [List.getD_cons_zero] at hj; exact absurd hj (by simp)
        | succ j' =>
          rw [List.getD_cons_succ] at hj
          have hmem := ih (i0 + 1) hsuffix j' strategy d child s hj hfb hs
          have hshape : perIndexMoves random
              (RecEntry.entry none d0 :: rest) i0 =
              perIndexMoves random rest (i0 + 1) := rfl
          rw [hshape, show i0 + (j' + 1) = i0 + 1 + j' by omega]
          exact hmem
      | some strat0 =>
        obtain ⟨c0, hc0⟩ := hready 0 strat0 d0 (by rw [List.getD_cons_zero])
        have hmatch : (perIndexMoves random
            (RecEntry.entry (some strat0) d0 :: rest) i0).1 =
            (match strat0.from_basic d0 with
              | Except.error _ =>
                (([] : List (Rng →
                  StateMachineRunner (Option (ChildStrategy τ)) →
                  List (StateMachineRunner (Option (ChildStrategy τ))))), true)
              | Except.ok child =>
                ((strat0.simplifiers random child).map
                    (fun s => convert_simplifier strat0 s i0) ++
                  (perIndexMoves random rest (i0 + 1)).1,
                 (perIndexMoves random rest (i0 + 1)).2)).1 := rfl
        have hshape : (perIndexMoves random
            (RecEntry.entry (some strat0) d0 :: rest) i0).1 =
            (strat0.simplifiers random c0).map
              (fun s => convert_simplifier strat0 s i0) ++
            (perIndexMoves random rest (i0 + 1)).1 := by
          rw [hmatch, hc0]
        cases j with
        | zero =>
          rw [List.getD_cons_zero] at hj
          injection hj with hst hd
          injection hst with hst
          subst hd
          subst hst
          have : child = c0 := by
            have := hfb.symm.trans hc0
            injection this
          subst this
          rw [hshape, Nat.add_zero]
          exact List.mem_append_left _ (List.mem_map.mpr ⟨s, hs, rfl⟩)
        | succ j' =>
          rw [List.getD_cons_succ] at hj
          have hmem := ih (i0 + 1) hsuffix j' strategy d child s hj hfb hs
          rw [hshape, show i0 + (j' + 1) = i0 + 1 + j' by omega]
          exact List.mem_append_right _ hmem

/-- C9: for every live index of a record carrying its producing strategy,
once the stored payloads deserialize (the state the spec's data model
describes), the shrink-move enumeration yields the per-step delegation
move wrapping each inner move of that index's own strategy on the
deserialized value; a wrapped move applied to any record is a no-op when
the target index is out of range or tombstoned, and each candidate it
yields rewrites only the target index's payload. -/
theorem per_step_delegation {τ : Type} :
    (∀ (random : Rng) (t : StateMachineRunner (Option (ChildStrategy τ))),
      DelegationReady t →
      ∀ (i : Nat) (strategy : ChildStrategy τ) (d : Basic) (child : τ)
        (s : Rng → τ → List τ),
        t.record.getD i .tombstone = .entry (some strategy) d →
        strategy.from_basic d = .ok child →
        s ∈ strategy.simplifiers random child →
        convert_simplifier strategy s i ∈ (simplifiers random t).1) ∧
    (∀ (strategy : ChildStrategy τ) (s : Rng → τ → List τ) (i : Nat)
      (random : Rng) (t : StateMachineRunner (Option (ChildStrategy τ))),
      t.record.length ≤ i → convert_simplifier strategy s i random t = []) ∧
    (∀ (strategy : ChildStrategy τ) (s : Rng → τ → List τ) (i : Nat)
      (random : Rng) (t : StateMachineRunner (Option (ChildStrategy τ))),
      t.record.getD i .tombstone = RecEntry.tombstone →
      convert_simplifier strategy s i random t = []) ∧
    (∀ (strategy : ChildStrategy τ) (s : Rng → τ → List τ) (i : Nat)
      (random : Rng) (t c : StateMachineRunner (Option (ChildStrategy τ))),
      c ∈ convert_simplifier strategy s i random t →
      (∀ j, j ≠ i → c.record.getD j .tombstone = t.record.getD j .tombstone) ∧
      ∃ t', c.record.getD i .tombstone =
        RecEntry.entry (some strategy) (strategy.to_basic t')) := by
  refine ⟨?_, ?_, ?_, ?_⟩
  · intro random t hready i strategy d child s hi hfb hs
    have hmem := perIndexMoves_mem random t.record 0 hready i strategy d child s
      hi hfb hs
    rw [Nat.zero_add] at hmem
    exact List.mem_cons_of_mem _ (List.mem_cons_of_mem _
      (List.mem_cons_of_mem _ hmem))
  · intro strategy s i random t hlen
    unfold convert_simplifier
    rw [if_pos hlen]
  · intro strategy s i random t htomb
    unfold convert_simplifier
    by_cases hlen : t.record.length ≤ i
    · rw [if_pos hlen]
    · rw [if_neg hlen, htomb]
  · intro strategy s i random t c hc
    obtain ⟨t', ht'⟩ := convert_simplifier_mem_inv hc
    subst ht'
    constructor
    · intro j hj
      show ((t.record.set i _).getD j RecEntry.tombstone) = _
      rw [List.getD_eq_getElem?_getD, List.getElem?_set_ne (Ne.symm hj),
        List.getD_eq_getElem?_getD]
    · refine ⟨t', ?_⟩
      have hlen : i < t.record.length := by
        by_contra hlen
        have h0 : convert_simplifier strategy s i random t = [] := by
          unfold convert_simplifier
          rw [if_pos (not_lt.mp hlen)]
        rw [h0] at hc
        exact absurd hc (List.not_mem_nil _)
      show ((t.record.set i
        (RecEntry.entry (some strategy) (strategy.to_basic t'))).getD i
          RecEntry.tombstone) = _
      rw [List.getD_eq_getElem?_getD, List.getElem?_set_self hlen]
      rfl

/-- C10: a wrapped per-step move applied to a record whose payload at the
target index no longer deserializes through the producing strategy yields
no candidates and raises no error (the embedding of the move is a total
function returning the empty list, mirroring `except BadData: return`);
and every candidate a wrapped move does yield preserves `parameter_seed`,
`template_seed`, `n_steps`, the per-index seed list, the record length
and every record entry other than the targeted index. -/
theorem wrapped_move_bad_data_no_candidates {τ : Type} :
    (∀ (strategy : ChildStrategy τ) (s : Rng → τ → List τ) (i : Nat)
      (random : Rng) (t : StateMachineRunner (Option (ChildStrategy τ)))
      (st : Option (ChildStrategy τ)) (d : Basic),
      t.record.getD i .tombstone = RecEntry.entry st d →
      strategy.from_basic d = .error () →
      convert_simplifier strategy s i random t = []) ∧
    (∀ (strategy : ChildStrategy τ) (s : Rng → τ → List τ) (i : Nat)
      (random : Rng) (t c : StateMachineRunner (Option (ChildStrategy τ))),
      c ∈ convert_simplifier strategy s i random t →
      c.parameter_seed = t.parameter_seed ∧
      c.template_seed = t.template_seed ∧
      c.n_steps = t.n_steps ∧
      c.templates = t.templates ∧
      c.record.length = t.record.length ∧
      ∀ j, j ≠ i → c.record.getD j .tombstone = t.record.getD j .tombstone) := by
  constructor
  · intro strategy s i random t st d hrec hfb
    unfold convert_simplifier
    by_cases hlen : t.record.length ≤ i
    · rw [if_pos hlen]
    · rw [if_neg hlen, hrec]
      dsimp only
      rw [hfb]
  · intro strategy s i random t c hc
    obtain ⟨t', ht'⟩ := convert_simplifier_mem_inv hc
    subst ht'
    refine ⟨rfl, rfl, rfl, rfl, ?_, ?_⟩
    · show (t.record.set i _).length = t.record.length
      exact List.length_set t.record i _
    · intro j hj
      show ((t.record.set i _).getD j RecEntry.tombstone) = _
      rw [List.getD_eq_getElem?_getD, List.getElem?_set_ne (Ne.symm hj),
        List.getD_eq_getElem?_getD]

/-- An inner shrink move of the demo child strategy: halve the value. -/
def demoMove : Rng → Nat → List Nat := fun _ t => [t / 2]

/-- A concrete child strategy over natural-number templates. -/
def demoChild : ChildStrategy Nat :=
  { from_basic := fun b =>
      match b with
      | .int n => if n < 0 then .error () else .ok n.toNat
      | _ => .error (),
    to_basic := fun t => .int t,
    simplifiers := fun _ _ => [demoMove] }

/-- A one-entry record carrying `demoChild` and a deserializable payload. -/
def demoDelegationInput : StateMachineRunner (Option (ChildStrategy Nat)) :=
  { parameter_seed := 0, template_seed := 0, n_steps := 1, templates := [0],
    record := [RecEntry.entry (some demoChild) (Basic.int 4)] }

/-- The single candidate the wrapped demo move yields on
`demoDelegationInput`: the payload rewritten to the halved value. -/
def demoShrunk : StateMachineRunner (Option (ChildStrategy Nat)) :=
  { parameter_seed := 0, template_seed := 0, n_steps := 1, templates := [0],
    record := [RecEntry.entry (some demoChild) (Basic.int 2)] }

/-- A one-entry record whose single index is tombstoned. -/
def demoTombInput : StateMachineRunner (Option (ChildStrategy Nat)) :=
  { parameter_seed := 0, template_seed := 0, n_steps := 1, templates := [0],
    record := [RecEntry.tombstone] }

/-- A one-entry record whose payload does not deserialize through
`demoChild`. -/
def demoBadInput : StateMachineRunner (Option (ChildStrategy Nat)) :=
  { parameter_seed := 0, template_seed := 0, n_steps := 1, templates := [0],
    record := [RecEntry.entry (some demoChild) (Basic.str "x")] }

theorem demoDelegationInput_ready : DelegationReady demoDelegationInput := by
  intro i strategy d h
  cases i with
  | zero =>
    rw [show demoDelegationInput.record.getD 0 RecEntry.tombstone =
      RecEntry.entry (some demoChild) (Basic.int 4) from rfl] at h
    injection h with h1 h2
    injection h1 with h1
    subst h2
    subst h1
    exact ⟨4, rfl⟩
  | succ n =>
    rw [show demoDelegationInput.record.getD (n + 1) RecEntry.tombstone =
      RecEntry.tombstone from rfl] at h
    exact absurd h (by simp)

theorem demoShrunk_mem :
    demoShrunk ∈ convert_simplifier demoChild demoMove 0 demoRng
      demoDelegationInput := by
  show demoShrunk ∈ [demoShrunk]
  exact List.mem_singleton.mpr rfl

/-- Witness instantiating the C9 theorem: the wrapped demo move is among
the enumerated simplifiers of a ready record, the no-op cases hold at
concrete out-of-range and tombstoned targets, and the concrete candidate
rewrites only index 0. -/
theorem per_step_delegation_witness :
    convert_simplifier demoChild demoMove 0 ∈
      (simplifiers demoRng demoDelegationInput).1 ∧
    convert_simplifier demoChild demoMove 5 demoRng demoDelegationInput = [] ∧
    convert_simplifier demoChild demoMove 0 demoRng demoTombInput = [] ∧
    ((∀ j, j ≠ 0 →
        demoShrunk.record.getD j RecEntry.tombstone =
          demoDelegationInput.record.getD j RecEntry.tombstone) ∧
      ∃ t', demoShrunk.record.getD 0 RecEntry.tombstone =
        RecEntry.entry (some demoChild) (demoChild.to_basic t')) :=
  ⟨(per_step_delegation (τ := Nat)).1 demoRng demoDelegationInput
      demoDelegationInput_ready 0 demoChild (Basic.int 4) 4 demoMove rfl rfl
      (List.mem_singleton.mpr rfl),
   (per_step_delegation (τ := Nat)).2.1 demoChild demoMove 5 demoRng
      demoDelegationInput (by decide),
   (per_step_delegation (τ := Nat)).2.2.1 demoChild demoMove 0 demoRng
      demoTombInput rfl,
   (per_step_delegation (τ := Nat)).2.2.2 demoChild demoMove 0 demoRng
      demoDelegationInput demoShrunk demoShrunk_mem⟩

/-- Witness instantiating the C10 theorem: a concrete bad-data no-op and
the concrete candidate's preservation of every field and every
non-targeted entry. -/
theorem wrapped_move_bad_data_no_candidates_witness :
    convert_simplifier demoChild demoMove 0 demoRng demoBadInput = [] ∧
    (demoShrunk.parameter_seed = demoDelegationInput.parameter_seed ∧
      demoShrunk.template_seed = demoDelegationInput.template_seed ∧
      demoShrunk.n_steps = demoDelegationInput.n_steps ∧
      demoShrunk.templates = demoDelegationInput.templates ∧
      demoShrunk.record.length = demoDelegationInput.record.length ∧
      ∀ j, j ≠ 0 →
        demoShrunk.record.getD j RecEntry.tombstone =
          demoDelegationInput.record.getD j RecEntry.tombstone) :=
  ⟨(wrapped_move_bad_data_no_candidates (τ := Nat)).1 demoChild demoMove 0
      demoRng demoBadInput (some demoChild) (Basic.str "x") rfl rfl,
   (wrapped_move_bad_data_no_candidates (τ := Nat)).2 demoChild demoMove 0
      demoRng demoDelegationInput demoShrunk demoShrunk_mem⟩

/-! ## Rule-based state machine builder -/

namespace RuleBased

/-- The `VarReference` handle: a name-keyed reference to a previously
produced value, resolved through `names_to_values` at execution time. -/
structure VarReference where
  name : String
deriving DecidableEq

/-- A declared rule argument: a bundle reference or an ordinary value
strategy (opaque here), the two-variant tagged union of the design
notes. -/
inductive RuleArg (σ : Type) where
  | bundleArg (name : String) : RuleArg σ
  | strategyArg (s : σ) : RuleArg σ
deriving DecidableEq

/-- A registered rule: target bundle names, the operation (acting on the
user-defined part of the machine state with the resolved arguments), and
the argument declarations. -/
structure RuleR (σ U V : Type) where
  targets : List String
  function : U → List (String × V) → V × U
  arguments : List (String × RuleArg σ)

/-- The bookkeeping state of a `RuleBasedStateMachine` instance plus the
subclass's own state `U`. -/
structure RBState (U V : Type) where
  bundles : List (String × List VarReference)
  name_counter : Nat
  names_to_values : List (String × V)
  user : U
deriving DecidableEq

/-- The two invalid-definition errors, reported with distinct messages in
the source. -/
inductive DefError where
  | noRules : DefError
  | noProgress : DefError
deriving DecidableEq

/-- `__init__`: a machine whose type declares no rules is rejected before
any state is built; otherwise bundles start empty and the handle counter
starts at 1. -/
def initMachine {σ U V : Type} (rules : List (RuleR σ U V)) (u : U) :
    Except DefError (RBState U V) :=
  if rules.isEmpty then .error .noRules
  else .ok { bundles := [], name_counter := 1, names_to_values := [], user := u }

/-- The contents of a named bundle (`self.bundle(name)` read as a
lookup-or-empty). -/
def bundleGetL (bundles : List (String × List VarReference)) (name : String) :
    List VarReference :=
  (bundles.lookup name).getD []

/-- The contents of a named bundle on a live instance. -/
def bundleGet {U V : Type} (st : RBState U V) (name : String) :
    List VarReference :=
  bundleGetL st.bundles name

/-- A rule argument as `steps()` converts it: a bundle argument becomes a
uniform sample over the bundle's current contents, a strategy argument
stays itself. -/
inductive ConvArg (σ : Type) where
  | sampled (pool : List VarReference) : ConvArg σ
  | strategyArg (s : σ) : ConvArg σ
deriving DecidableEq

/-- The argument-conversion loop of `steps()`: fails (excluding the whole
rule) as soon as a bundle-typed argument's bundle is empty. -/
def convertArgs {σ U V : Type} (st : RBState U V) :
    List (String × RuleArg σ) → Option (List (String × ConvArg σ))
  | [] => some []
  | (k, .bundleArg n) :: rest =>
    if (bundleGet st n).isEmpty then none
    else do
      let tail ← convertArgs st rest
      some ((k, .sampled (bundleGet st n)) :: tail)
  | (k, .strategyArg s) :: rest => do
    let tail ← convertArgs st rest
    some ((k, .strategyArg s) :: tail)

/-- `steps()`: every rule whose bundle-typed arguments all currently hold
at least one value contributes one candidate; if none does, the distinct
"no progress" invalid-definition error is raised instead of returning an
empty strategy. -/
def steps {σ U V : Type} (rules : List (RuleR σ U V)) (st : RBState U V) :
    Except DefError (List (RuleR σ U V × List (String × ConvArg σ))) :=
  let strategies := rules.filterMap fun r =>
    (convertArgs st r.arguments).map fun ca => (r, ca)
  if strategies.isEmpty then .error .noProgress else .ok strategies

/-- An argument value as drawn for one step: a bundle sample yields a
`VarReference`, a value strategy yields a concrete value. -/
inductive StepArg (V : Type) where
  | ref (r : VarReference) : StepArg V
  | value (v : V) : StepArg V
deriving DecidableEq

/-- The resolution loop at the top of `execute_step`: every
`VarReference` argument is replaced by the value recorded under its
handle. -/
def resolveArgs {U V : Type} (st : RBState U V) :
    List (String × StepArg V) → Option (List (String × V))
  | [] => some []
  | (k, .ref r) :: rest => do
    let v ← st.names_to_values.lookup r.name
    let tail ← resolveArgs st rest
    some ((k, v) :: tail)
  | (k, .value v) :: rest => do
    let tail ← resolveArgs st rest
    some ((k, v) :: tail)

/-- Append a handle to a named bundle (`self.bundle(target).append(...)`,
with `setdefault` creating the bundle when absent). -/
def bundleAppend :
    List (String × List VarReference) → String → VarReference →
      List (String × List VarReference)
  | [], name, v => [(name, [v])]
  | (k, l) :: rest, name, v =>
    if k = name then (k, l ++ [v]) :: rest
    else (k, l) :: bundleAppend rest name v

/-- `execute_step`: resolve bundle references by handle lookup, invoke the
operation, and — when the rule declares targets — assign the fresh handle
`v<counter>`, bump the counter, record the result under the handle and
append the handle to each declared target (once per occurrence in the
target list). -/
def execute_step {σ U V : Type} (st : RBState U V)
    (step : RuleR σ U V × List (String × StepArg V)) :
    Option (RBState U V × V) := do
  let resolved ← resolveArgs st step.2
  let rule := step.1
  let call := rule.function st.user resolved
  if rule.targets.isEmpty then
    some ({ st with user := call.2 }, call.1)
  else
    let name := "v" ++ toString st.name_counter
    let newBundles :=
      rule.targets.foldl (fun b t => bundleAppend b t ⟨name⟩) st.bundles
    some ({ bundles := newBundles, name_counter := st.name_counter + 1,
            names_to_values := (name, call.1) :: st.names_to_values,
            user := call.2 }, call.1)

theorem convertArgs_none {σ U V : Type} (st : RBState U V) :
    ∀ (args : List (String × RuleArg σ)) (k n : String),
      (k, RuleArg.bundleArg n) ∈ args → bundleGet st n = [] →
      convertArgs st args = none := by
  intro args
  induction args with
  | nil => intro k n hmem _; exact absurd hmem (List.not_mem_nil _)
  | cons head rest ih =>
    intro k n hmem hempty
    rcases List.mem_cons.mp hmem with heq | hmem2
    · subst heq
      unfold convertArgs
      rw [if_pos (by simp [hempty])]
    · obtain ⟨k0, a0⟩ := head
      cases a0 with
      | bundleArg n0 =>
        unfold convertArgs
        by_cases h0 : (bundleGet st n0).isEmpty
        · rw [if_pos h0]
        · rw [if_neg h0, ih k n hmem2 hempty]
          rfl
      | strategyArg s0 =>
        unfold convertArgs
        rw [ih k n hmem2 hempty]
        rfl

/-- C7: a rule with a bundle-typed argument whose bundle currently holds
no values is excluded outright from the candidate set built by `steps()`;
a machine declaring zero rules raises the invalid-definition error at
construction; and a state from which no rule is eligible raises the
distinct "no progress" invalid-definition error rather than returning an
empty strategy. -/
theorem rule_eligibility {σ U V : Type} :
    (∀ (rules : List (RuleR σ U V)) (st : RBState U V) (r : RuleR σ U V)
      (k n : String),
      (k, RuleArg.bundleArg n) ∈ r.arguments → bundleGet st n = [] →
      ∀ cands, steps rules st = .ok cands →
      ∀ ca, (r, ca) ∉ cands) ∧
    (∀ u : U, initMachine ([] : List (RuleR σ U V)) u = .error .noRules) ∧
    (∀ (rules : List (RuleR σ U V)) (st : RBState U V),
      (rules.filterMap fun r =>
        (convertArgs st r.arguments).map fun ca => (r, ca)) = [] →
      steps rules st = .error .noProgress) := by
  refine ⟨?_, ?_, ?_⟩
  · intro rules st r k n hmem hempty cands hsteps ca hin
    unfold steps at hsteps
    by_cases hnil : (rules.filterMap fun r =>
        (convertArgs st r.arguments).map fun ca => (r, ca)).isEmpty
    · rw [if_pos hnil] at hsteps
      exact absurd hsteps (by simp)
    · rw [if_neg hnil] at hsteps
      injection hsteps with hsteps
      subst hsteps
      obtain ⟨r', _, hr'⟩ := List.mem_filterMap.mp hin
      cases hca : convertArgs st r'.arguments with
      | none => rw [hca] at hr'; exact absurd hr' (by simp)
      | some ca' =>
        rw [hca] at hr'
        have hpair : (r', ca') = (r, ca) := Option.some.inj hr'
        have hr1 : r' = r := congrArg Prod.fst hpair
        subst hr1
        rw [convertArgs_none st r'.arguments k n hmem hempty] at hca
        exact absurd hca (by simp)
  · intro u
    unfold initMachine
    rw [if_pos (by simp)]
  · intro rules st h
    unfold steps
    rw [h]
    rfl

theorem lookup_cons_ne {β : Type} (k n : String) (x : β)
    (rest : List (String × β)) (h : (n == k) = false) :
    List.lookup n ((k, x) :: rest) = List.lookup n rest := by
  simp [List.lookup, h]

theorem lookup_cons_self {β : Type} (k : String) (x : β)
    (rest : List (String × β)) :
    List.lookup k ((k, x) :: rest) = some x := by
  simp [List.lookup]

theorem bundleGetL_append_self (b : List (String × List VarReference))
    (n : String) (v : VarReference) :
    bundleGetL (bundleAppend b n v) n = bundleGetL b n ++ [v] := by
  induction b with
  | nil => simp [bundleAppend, bundleGetL, List.lookup]
  | cons head rest ih =>
    obtain ⟨k, l⟩ := head
    unfold bundleAppend
    by_cases hk : k = n
    · subst hk
      unfold bundleGetL
      rw [if_pos rfl, lookup_cons_self, lookup_cons_self]
      rfl
    · rw [if_neg hk]
      have hbeq : (n == k) = false := beq_eq_false_iff_ne.mpr (Ne.symm hk)
      unfold bundleGetL
      rw [lookup_cons_ne k n l _ hbeq, lookup_cons_ne k n l rest hbeq]
      exact ih

theorem bundleGetL_append_ne (b : List (String × List VarReference))
    (n n' : String) (v : VarReference) (h : n' ≠ n) :
    bundleGetL (bundleAppend b n v) n' = bundleGetL b n' := by
  have hbeq : (n' == n) = false := beq_eq_false_iff_ne.mpr h
  induction b with
  | nil =>
    unfold bundleAppend bundleGetL
    rw [lookup_cons_ne n n' [v] [] hbeq]
  | cons head rest ih =>
    obtain ⟨k, l⟩ := head
    unfold bundleAppend
    by_cases hk : k = n
    · subst hk
      unfold bundleGetL
      rw [if_pos rfl, lookup_cons_ne k n' (l ++ [v]) rest hbeq,
        lookup_cons_ne k n' l rest hbeq]
    · rw [if_neg hk]
      unfold bundleGetL
      cases hke : n' == k with
      | true =>
        rw [show List.lookup n' ((k, l) :: bundleAppend rest n v) = some l by
          simp [List.lookup, hke]]
        rw [show List.lookup n' ((k, l) :: rest) = some l by
          simp [List.lookup, hke]]
      | false =>
        rw [lookup_cons_ne k n' l _ hke, lookup_cons_ne k n' l rest hke]
        exact ih

theorem bundleGetL_foldl_append (targets : List String) :
    ∀ (b : List (String × List VarReference)) (v : VarReference) (t : String),
      bundleGetL (targets.foldl (fun acc tg => bundleAppend acc tg v) b) t =
        bundleGetL b t ++ List.replicate (targets.count t) v := by
  induction targets with
  | nil => intro b v t; simp
  | cons t0 rest ih =>
    intro b v t
    rw [List.foldl_cons, ih (bundleAppend b t0 v) v t]
    by_cases ht : t = t0
    · rw [ht, bundleGetL_append_self]
      rw [show List.count t0 (t0 :: rest) = List.count t0 rest + 1 by
        simp [List.count_cons]]
      rw [List.replicate_succ]
      simp
    · rw [bundleGetL_append_ne b t0 t v ht]
      rw [show List.count t (t0 :: rest) = List.count t rest by
        simp [List.count_cons, ht]]

@[simp] theorem option_some_bind {α β : Type} (a : α) (f : α → Option β) :
    (some a >>= f) = f a := rfl

/-- C8 (corrected): `execute_step` resolves each bundle-reference argument
by handle lookup before invoking the operation, and when the rule declares
targets it assigns the result the fresh handle `v<counter>`, increments
the counter, records the value under the handle, and appends the handle to
a declared target bundle once per occurrence of that bundle in the target
list — exactly one entry when the bundle is listed once.  (The original
"every target bundle grows by exactly one entry" fails for a rule listing
the same bundle twice: see the counterexample.) -/
theorem execute_step_spec {σ U V : Type} (st : RBState U V)
    (rule : RuleR σ U V) (data : List (String × StepArg V))
    (resolved : List (String × V))
    (hres : resolveArgs st data = some resolved) :
    ∃ st' : RBState U V,
      execute_step st (rule, data) =
        some (st', (rule.function st.user resolved).1) ∧
      st'.user = (rule.function st.user resolved).2 ∧
      (rule.targets = [] → st'.bundles = st.bundles ∧
        st'.name_counter = st.name_counter ∧
        st'.names_to_values = st.names_to_values) ∧
      (rule.targets ≠ [] →
        st'.name_counter = st.name_counter + 1 ∧
        st'.names_to_values.lookup ("v" ++ toString st.name_counter) =
          some (rule.function st.user resolved).1 ∧
        ∀ t, bundleGet st' t = bundleGet st t ++
          List.replicate (List.count t rule.targets)
            (VarReference.mk ("v" ++ toString st.name_counter))) := by
  simp only [execute_step, hres, option_some_bind]
  by_cases htgt : rule.targets.isEmpty
  · rw [if_pos htgt]
    exact ⟨{ st with user := (rule.function st.user resolved).2 }, rfl, rfl,
      fun _ => ⟨rfl, rfl, rfl⟩,
      fun hne => absurd (List.isEmpty_iff.mp htgt) hne⟩
  · rw [if_neg htgt]
    refine ⟨_, rfl, rfl,
      fun heq => absurd (List.isEmpty_iff.mpr heq) htgt,
      fun _ => ⟨rfl, lookup_cons_self _ _ _, ?_⟩⟩
    intro t
    show bundleGetL (rule.targets.foldl
      (fun b tg => bundleAppend b tg
        ⟨"v" ++ toString st.name_counter⟩) st.bundles) t = _
    exact bundleGetL_foldl_append rule.targets st.bundles _ t

/-- The fresh bookkeeping state every rule machine starts from. -/
def emptyBundlesState : RBState Unit Nat :=
  { bundles := [], name_counter := 1, names_to_values := [], user := () }

/-- A rule that lists the same target bundle twice. -/
def dupTargetsRule : RuleR Unit Unit Nat :=
  { targets := ["b", "b"], function := fun u _ => (0, u), arguments := [] }

/-- The state `execute_step` produces from `dupTargetsRule`: bundle `b`
received the handle twice. -/
def dupResultState : RBState Unit Nat :=
  { bundles := [("b", [⟨"v1"⟩, ⟨"v1"⟩])], name_counter := 2,
    names_to_values := [("v1", 0)], user := () }

/-- C8 counterexample: a rule declaring the target list `["b", "b"]` makes
bundle `b` grow by two entries in one step, not by exactly one as the
claim states for every declared target bundle. -/
theorem execute_step_growth_break :
    execute_step emptyBundlesState (dupTargetsRule, []) =
      some (dupResultState, 0) ∧
    (bundleGet dupResultState "b").length = 2 ∧
    ¬((bundleGet dupResultState "b").length =
      (bundleGet emptyBundlesState "b").length + 1) := by
  refine ⟨by decide, by decide, by decide⟩

/-- A state holding one produced value, reachable through bundle `b`. -/
def resolveState : RBState Unit Nat :=
  { bundles := [("b", [⟨"v1"⟩])], name_counter := 2,
    names_to_values := [("v1", 5)], user := () }

/-- A rule reading one bundle argument and targeting bundle `c`. -/
def appendRule : RuleR Unit Unit Nat :=
  { targets := ["c"], function := fun u args => (args.length, u),
    arguments := [("x", RuleArg.bundleArg "b")] }

/-- Witness instantiating the corrected C8 theorem: the handle reference
`v1` resolves to the recorded value 5 before the call, and the single
target bundle `c` receives exactly one fresh handle `v2`. -/
theorem execute_step_spec_witness :
    ∃ st' : RBState Unit Nat,
      execute_step resolveState (appendRule, [("x", StepArg.ref ⟨"v1"⟩)]) =
        some (st', (appendRule.function resolveState.user [("x", 5)]).1) ∧
      st'.user = (appendRule.function resolveState.user [("x", 5)]).2 ∧
      (appendRule.targets = [] → st'.bundles = resolveState.bundles ∧
        st'.name_counter = resolveState.name_counter ∧
        st'.names_to_values = resolveState.names_to_values) ∧
      (appendRule.targets ≠ [] →
        st'.name_counter = resolveState.name_counter + 1 ∧
        st'.names_to_values.lookup
          ("v" ++ toString resolveState.name_counter) =
          some (appendRule.function resolveState.user [("x", 5)]).1 ∧
        ∀ t, bundleGet st' t = bundleGet resolveState t ++
          List.replicate (List.count t appendRule.targets)
            (VarReference.mk ("v" ++ toString resolveState.name_counter))) :=
  execute_step_spec resolveState appendRule [("x", StepArg.ref ⟨"v1"⟩)]
    [("x", 5)] rfl

/-- A rule with no arguments, always eligible. -/
def ruleFree : RuleR Unit Unit Nat :=
  { targets := [], function := fun u _ => (0, u), arguments := [] }

/-- A rule requiring a value from the (empty) bundle `b`. -/
def ruleNeedy : RuleR Unit Unit Nat :=
  { targets := [], function := fun u _ => (1, u), arguments :=
    [("x", RuleArg.bundleArg "b")] }

/-- Witness instantiating the C7 theorem: the bundle-starved rule is
absent from the concrete candidate set, the zero-rule machine fails at
construction, and the all-starved rule set raises the no-progress error. -/
theorem rule_eligibility_witness :
    (ruleNeedy, ([] : List (String × ConvArg Unit))) ∉
      [(ruleFree, ([] : List (String × ConvArg Unit)))] ∧
    initMachine ([] : List (RuleR Unit Unit Nat)) () =
      Except.error DefError.noRules ∧
    steps [ruleNeedy] emptyBundlesState = Except.error DefError.noProgress :=
  ⟨(rule_eligibility (σ := Unit) (U := Unit) (V := Nat)).1
      [ruleNeedy, ruleFree] emptyBundlesState ruleNeedy "x" "b"
      (List.mem_singleton.mpr rfl) rfl [(ruleFree, [])] rfl [],
   (rule_eligibility (σ := Unit) (U := Unit) (V := Nat)).2.1 (),
   (rule_eligibility (σ := Unit) (U := Unit) (V := Nat)).2.2
      [ruleNeedy] emptyBundlesState rfl⟩

end RuleBased

end Stateful
